import Mathlib

/-!
Verification development for the dlm4py flutter-analysis module.

This file gives a shallow embedding of the numerical core of
src/dlm4py.py: the JDVec complex-vector layer, the GMRES solver of the
Jacobi--Davidson method, and the DLM flutter-analysis driver
(computeFlutterMat / computeFlutterDet / computeFlutterMode /
velocitySweep / setUpSubspace / lanczos).

Modelling conventions:
  - Python floats are modelled by exact rationals; complex scalars by
    pairs of rationals (re, im).
  - The external real-vector capability (TACS BVec: copyValues, axpy,
    scale, dot, zeroEntries) is modelled over List Rat with explicit
    dimension checks, since the underlying layer rejects mismatched
    dimensions.
  - External collaborators (numpy sqrt and abs on complex values, the
    aerodynamic kernel dlm.*, the TACS assembler, the load transfer
    object) are oracle functions supplied as parameters.
  - Python runtime failures are made explicit in an error monad:
    a reference to an unbound name raises a name error, indexing an
    absent element raises an index error, and calling a method on None
    raises an attribute error.  The error taxonomy of the design
    (Breakdown, NonConvergence) is included so that the absence of those
    signals in the code is expressible.
-/

/-- Complex scalar modelled as a pair of rationals (re, im). -/
abbrev Cq := Rat × Rat

namespace Cq

def add (a b : Cq) : Cq := (a.1 + b.1, a.2 + b.2)

def sub (a b : Cq) : Cq := (a.1 - b.1, a.2 - b.2)

def mul (a b : Cq) : Cq := (a.1 * b.1 - a.2 * b.2, a.1 * b.2 + a.2 * b.1)

def neg (a : Cq) : Cq := (-a.1, -a.2)

/-- Real scalar times complex scalar. -/
def smul (q : Rat) (a : Cq) : Cq := (q * a.1, q * a.2)

/-- Squared modulus, re^2 + im^2 (exactly rational). -/
def abs2 (a : Cq) : Rat := a.1 * a.1 + a.2 * a.2

/-- Complex reciprocal 1/a (0 when a = 0, in the Rat convention). -/
def inv (a : Cq) : Cq := (a.1 / abs2 a, -a.2 / abs2 a)

/-- Complex division a/b (0 when b = 0, in the Rat convention). -/
def div (a b : Cq) : Cq := mul a (inv b)

/-- Complex divided by a real scalar. -/
def divR (a : Cq) (q : Rat) : Cq := (a.1 / q, a.2 / q)

def ofReal (q : Rat) : Cq := (q, 0)

end Cq

/-- Runtime failure taxonomy. The first three are Python runtime errors
actually raised by the code as written; breakdown and nonConvergence are
the designed numerical-failure signals of the spec, included so that
their absence from every execution path is a statable fact. -/
inductive Err where
  | nameError (s : String)
  | attrError (s : String)
  | indexError
  | dimMismatch
  | breakdown
  | nonConvergence
deriving DecidableEq, Repr

/-- Evaluation of an unbound Python name: always a name error. -/
def pyName (α : Type) (s : String) : Except Err α := .error (.nameError s)

/-- Checked list indexing: Python list/array element access. -/
def lget {α : Type} (xs : List α) (i : ℕ) : Except Err α :=
  match xs.get? i with
  | some a => .ok a
  | none => .error .indexError

/-- List update at an index (no-op when out of range; every use in this
file follows a successful lget of the same index). -/
def lset {α : Type} (xs : List α) (i : ℕ) (a : α) : List α :=
  xs.set i a

/-- Checked access to the last element (Python index -1). -/
def llast {α : Type} (xs : List α) : Except Err α :=
  match xs.getLast? with
  | some a => .ok a
  | none => .error .indexError

/-- Real vector of the underlying external vector capability. -/
abbrev RVec := List Rat

/-- copyValues of the real-vector capability: self receives the values
of vec; the layer rejects mismatched dimensions. -/
def rcopyValues (self vec : RVec) : Except Err RVec :=
  if self.length = vec.length then .ok vec else .error .dimMismatch

/-- axpy of the real-vector capability: self + alpha * vec. -/
def raxpy (alpha : Rat) (self vec : RVec) : Except Err RVec :=
  if self.length = vec.length then
    .ok (List.zipWith (fun s v => s + alpha * v) self vec)
  else .error .dimMismatch

/-- scale of the real-vector capability. -/
def rscale (alpha : Rat) (self : RVec) : RVec :=
  self.map (fun t => alpha * t)

/-- dot of the real-vector capability. -/
def rdot (self vec : RVec) : Except Err Rat :=
  if self.length = vec.length then
    .ok ((List.zipWith (fun s v => s * v) self vec).foldl (· + ·) 0)
  else .error .dimMismatch

/-- zeroEntries of the real-vector capability. -/
def rzero (self : RVec) : RVec :=
  self.map (fun _ => 0)

/-- JDVec from dlm4py.py: a real component and an optional complex
(imaginary) component, each an externally supplied real vector. -/
structure JDVec where
  xr : RVec
  xc : Option RVec
deriving DecidableEq, Repr

namespace JDVec

/-- JDVec.copy from dlm4py.py: copy the values from vec to self.
When vec has no complex component the code calls self.xc.zero()
unconditionally; if self.xc is None this is an attribute error on
None, exactly as in Python. -/
def copy (self vec : JDVec) : Except Err JDVec := do
  let xr ← rcopyValues self.xr vec.xr
  match vec.xc with
  | some vc =>
    match self.xc with
    | some sc => do
      let xc ← rcopyValues sc vc
      pure ⟨xr, some xc⟩
    | none => .error (.attrError "copyValues")
  | none =>
    match self.xc with
    | some sc => pure ⟨xr, some (rzero sc)⟩
    | none => .error (.attrError "zero")

/-- JDVec.dot from dlm4py.py: the Hermitian inner product
(xr.yr + xc.yc) + i (xr.yc - xc.yr), with the four cases on which
components are defined, in source order. -/
def dot (self vec : JDVec) : Except Err Cq :=
  match self.xc, vec.xc with
  | none, none => do
    let a ← rdot self.xr vec.xr
    pure (a, 0)
  | none, some vc => do
    let a ← rdot self.xr vec.xr
    let b ← rdot self.xr vc
    pure (a, b)
  | some sc, none => do
    let a ← rdot self.xr vec.xr
    let b ← rdot sc vec.xr
    pure (a, -b)
  | some sc, some vc => do
    let a ← rdot self.xr vec.xr
    let b ← rdot sc vc
    let c ← rdot self.xr vc
    let d ← rdot sc vec.xr
    pure (a + b, c - d)

/-- Line 77 of dlm4py.py: if alpha.imag is nonzero, self.xc gains
alpha.imag times vec.xr; when self.xc is None this is an attribute
error on None. -/
def axpyXc1 (selfxc : Option RVec) (alpha : Cq) (vxr : RVec) :
    Except Err (Option RVec) :=
  if alpha.2 ≠ 0 then
    match selfxc with
    | some sc => do
      let c ← raxpy alpha.2 sc vxr
      pure (some c)
    | none => .error (.attrError "axpy")
  else pure selfxc

/-- JDVec.axpy from dlm4py.py: self <- self + alpha * vec, expanded
component-wise in source order (lines 73, 77, 81, 84).  The updates to
self.xc require self.xc to exist; a None there is an attribute error. -/
def axpy (self : JDVec) (alpha : Cq) (vec : JDVec) : Except Err JDVec := do
  let xr1 ← raxpy alpha.1 self.xr vec.xr
  let xc1 ← axpyXc1 self.xc alpha vec.xr
  match vec.xc with
  | some vc =>
    match xc1 with
    | some sc => do
      let xc2 ← raxpy alpha.1 sc vc
      if alpha.2 ≠ 0 then do
        let xr2 ← raxpy (-alpha.2) xr1 vc
        pure ⟨xr2, some xc2⟩
      else pure ⟨xr1, some xc2⟩
    | none => .error (.attrError "axpy")
  | none => pure ⟨xr1, xc1⟩

/-- JDVec.scale from dlm4py.py: both components are scaled by
alpha.real only; the imaginary part of alpha is never read. -/
def scale (self : JDVec) (alpha : Cq) : JDVec :=
  ⟨rscale alpha.1 self.xr, self.xc.map (rscale alpha.1)⟩

/-- JDVec.zero from dlm4py.py. -/
def zero (self : JDVec) : JDVec :=
  ⟨rzero self.xr, self.xc.map rzero⟩

end JDVec

/-! ### Helper algebra for the axpy update -/

/-- The pointwise update performed by a successful raxpy. -/
def axL (alpha : Rat) (a b : RVec) : RVec :=
  List.zipWith (fun s v => s + alpha * v) a b

deriving instance DecidableEq for Except

/-- The Hermitian inner-product formula exactly as the specification
states it: (xr.yr + xc.yc) + i (xr.yc - xc.yr), with both imaginary
parts present. -/
def specHermitianDot (xr xc yr yc : RVec) : Cq :=
  ((List.zipWith (· * ·) xr yr).foldl (· + ·) 0 +
     (List.zipWith (· * ·) xc yc).foldl (· + ·) 0,
   (List.zipWith (· * ·) xr yc).foldl (· + ·) 0 -
     (List.zipWith (· * ·) xc yr).foldl (· + ·) 0)

/-! ### The GMRES solver of the Jacobi--Davidson method -/

/-- Pointwise update of a two-index array entry. -/
def upd2 (f : ℕ → ℕ → Cq) (i j : ℕ) (v : Cq) : ℕ → ℕ → Cq :=
  fun a b => if a = i ∧ b = j then v else f a b

/-- Pointwise update of a one-index array entry. -/
def upd1 (f : ℕ → Cq) (i : ℕ) (v : Cq) : ℕ → Cq :=
  fun a => if a = i then v else f a

/-- The GMRES object of dlm4py.py.  The operator and preconditioner
capabilities are oracle functions; the Hessenberg, residual and
rotation arrays are as allocated by init; W and Z are the subspace
lists (allocated empty by init and never populated anywhere in the
module). -/
structure GMRES where
  matMult : JDVec → JDVec
  pcApply : JDVec → JDVec
  msub : ℕ
  H : ℕ → ℕ → Cq
  res : ℕ → Cq
  Qsin : ℕ → Cq
  Qcos : ℕ → Cq
  W : List JDVec
  Z : List JDVec

/-- GMRES.__init__ from dlm4py.py: zero arrays, empty subspace lists. -/
def GMRES.init (mat pc : JDVec → JDVec) (msub : ℕ) : GMRES :=
  ⟨mat, pc, msub, fun _ _ => (0, 0), fun _ => (0, 0), fun _ => (0, 0),
    fun _ => (0, 0), [], []⟩

/-- Mutable state of one solve invocation. -/
structure GmresLoopSt where
  W : List JDVec
  Z : List JDVec
  H : ℕ → ℕ → Cq
  res : ℕ → Cq
  Qsin : ℕ → Cq
  Qcos : ℕ → Cq

/-- One step of the modified Gram-Schmidt loop of GMRES.solve:
H[j,i] = W[j].dot(W[i+1]); W[i+1].axpy(-H[j,i], W[j]). -/
def gmresMGS (W : List JDVec) (i : ℕ) (acc : (ℕ → ℕ → Cq) × JDVec)
    (j : ℕ) : Except Err ((ℕ → ℕ → Cq) × JDVec) := do
  let wj ← lget W j
  let hji ← wj.dot acc.2
  let wip ← acc.2.axpy (Cq.neg hji) wj
  pure (upd2 acc.1 j i hji, wip)

/-- Application of the previously stored Givens rotations to column i
(lines 167-171 of dlm4py.py). -/
def gmresGivensPrev (Qsin Qcos : ℕ → Cq) (i : ℕ) (H : ℕ → ℕ → Cq) :
    ℕ → ℕ → Cq :=
  (List.range i).foldl (fun H j =>
    let h1 := H j i
    let h2 := H (j + 1) i
    let H1 := upd2 H j i (Cq.add (Cq.mul h1 (Qcos j)) (Cq.mul h2 (Qsin j)))
    upd2 H1 (j + 1) i
      (Cq.add (Cq.neg (Cq.mul h1 (Qsin j))) (Cq.mul h2 (Qcos j)))) H

/-- One iteration of the Arnoldi loop of GMRES.solve (lines 149-190 of
dlm4py.py).  Two statements of the source read names that are unbound
in Python: line 164 reads the bare name H (the normalization divisor
was written H[i+1,i] instead of self.H[i+1,i]) and line 188 reads the
bare name res; both are name errors, embedded by pyName. -/
def gmresIter (np_sqrt : Cq → Cq) (matMult pcApply : JDVec → JDVec)
    (st : GmresLoopSt) (i : ℕ) : Except Err GmresLoopSt := do
  let wi ← lget st.W i
  let _ ← lget st.Z i
  let zi := pcApply wi
  let Z := lset st.Z i zi
  let _ ← lget st.W (i + 1)
  let wip := matMult zi
  let W := lset st.W (i + 1) wip
  let acc ← (List.range (i + 1)).foldlM (gmresMGS W i) (st.H, wip)
  let H := acc.1
  let wip := acc.2
  let W := lset W (i + 1) wip
  let dd ← wip.dot wip
  let H := upd2 H (i + 1) i (np_sqrt dd)
  let hpiv ← pyName Cq "H"
  let wip := wip.scale (Cq.inv hpiv)
  let W := lset W (i + 1) wip
  let H := gmresGivensPrev st.Qsin st.Qcos i H
  let h1 := H i i
  let h2 := H (i + 1) i
  let sq := np_sqrt (Cq.add (Cq.ofReal (Cq.abs2 h1)) (Cq.mul h2 h2))
  let Qsin := upd1 st.Qsin i (Cq.div h2 sq)
  let Qcos := upd1 st.Qcos i (Cq.div h1 sq)
  let H := upd2 H i i (Cq.add (Cq.mul h1 (Qcos i)) (Cq.mul h2 (Qsin i)))
  let H := upd2 H (i + 1) i
    (Cq.add (Cq.neg (Cq.mul h1 (Qsin i))) (Cq.mul h2 (Qcos i)))
  let rold ← pyName Cq "res"
  let res := upd1 st.res i (Cq.mul rold (Qcos i))
  let res := upd1 res (i + 1) (Cq.neg (Cq.mul rold (Qsin i)))
  pure ⟨W, Z, H, res, Qsin, Qcos⟩

/-- Back substitution of GMRES.solve (lines 193-196 of dlm4py.py);
dead code in the source, reachable only after the undefined name
niters is evaluated. -/
def gmresBackSub (H : ℕ → ℕ → Cq) (res : ℕ → Cq) (niters : ℕ) :
    ℕ → Cq :=
  (List.range niters).reverse.foldl (fun res i =>
    let v := (List.range' (i + 1) (niters - i - 1)).foldl
      (fun acc j => Cq.sub acc (Cq.mul (H i j) (res j))) (res i)
    upd1 res i (Cq.div v (H i i))) res

/-- True exactly on the errors that some statement of the embedded code
can actually raise; false on the designed numerical-failure signals
Breakdown and NonConvergence, which no statement of the code produces. -/
def benign (e : Err) : Bool :=
  match e with
  | .breakdown => false
  | .nonConvergence => false
  | _ => true

/-- Every error produced by the computation is benign. -/
def Benign {α : Type} (m : Except Err α) : Prop :=
  ∀ e, m = .error e → benign e = true

/-- Whether the computation completed without an exception. -/
def isOkE {α : Type} (m : Except Err α) : Bool :=
  match m with
  | .ok _ => true
  | .error _ => false

/-- Whether the computation reported exactly the error e0. -/
def reportsErr {α : Type} (e0 : Err) (m : Except Err α) : Bool :=
  match m with
  | .error e => decide (e = e0)
  | .ok _ => false

/-- GMRES.solve from dlm4py.py.  The final stage evaluates the name
niters, which is bound nowhere in the function or module: a name
error.  (With msub greater than zero, the loop body fails earlier,
already at the bare H of line 164.) -/
def GMRES.solve (np_sqrt : Cq → Cq) (g : GMRES) (b x : JDVec) :
    Except Err (JDVec × ℕ) := do
  let w0 ← lget g.W 0
  let w0 ← w0.copy b
  let d ← w0.dot w0
  let r0 := np_sqrt d
  let res0 := upd1 g.res 0 r0
  let w0 := w0.scale (Cq.inv r0)
  let W := lset g.W 0 w0
  let st0 : GmresLoopSt := ⟨W, g.Z, g.H, res0, g.Qsin, g.Qcos⟩
  let st ← (List.range g.msub).foldlM
    (gmresIter np_sqrt g.matMult g.pcApply) st0
  let niters ← pyName ℕ "niters"
  let res := gmresBackSub st.H st.res niters
  let x1 := x.zero
  let x2 ← (List.range niters).foldlM (fun xv i => do
      let zi ← lget st.Z i
      xv.axpy (res i) zi) x1
  pure (x2, niters)

/-- A JDVec with both components present and of length n. -/
def shaped (n : ℕ) (v : JDVec) : Prop :=
  v.xr.length = n ∧ ∃ c, v.xc = some c ∧ c.length = n

/-- The value of a successful rdot. -/
def dotL (a b : RVec) : Rat :=
  (List.zipWith (fun s v => s * v) a b).foldl (· + ·) 0

/-- Unit complex basis vector used in the concrete GMRES scenarios. -/
def gw : JDVec := ⟨[1], some [0]⟩

/-- A GMRES object with identity operator and preconditioner, one
Arnoldi step, and externally populated subspace lists. -/
def gC1 : GMRES := { GMRES.init id id 1 with W := [gw, gw], Z := [gw] }

/-! ### The DLM flutter-analysis driver -/

abbrev RMat := List (List Rat)
abbrev CMat := List (List Cq)
abbrev CVec := List Cq

/-- The DLM object of dlm4py.py: geometry and the reduced model. -/
structure DLM where
  is_symmetric : Int
  use_steady_kernel : Bool
  epstol : Rat
  Dtrans : Option CMat
  npanels : ℕ
  nnodes : ℕ
  Xi : RMat
  Xo : RMat
  Xr : RMat
  dXav : RVec
  X : RMat
  conn : List (List ℕ)
  temp : Option RVec
  Vm : List RVec
  kmat : RMat
  mmat : RMat
  mat : RMat
  Kr : RMat
  Qm : List RVec
  Qm_modes : RMat
  Qm_vwash : RMat
  Qm_dwash : RMat
  omega : List Rat

/-- External collaborators of the DLM object: the aerodynamic kernel
dlm.*, numpy linear algebra, the TACS assembler and vectors, and the
load-transfer object, all as oracle functions. -/
structure DLMExt where
  influencematrix :
    Rat → Rat → Rat → RMat → RMat → RMat → RVec → Int → Bool → Rat → CMat
  linsolve : CMat → CMat → CMat
  addcpforces : Rat → CVec → RMat → List (List ℕ) → CMat
  detC : CMat → Cq
  cabs : Cq → Rat
  rsqrt : Rat → Rat
  stiffMat : RMat
  massMat : RMat
  newVec : RVec
  randVec : RVec
  applyBCs : RVec → RVec
  gmresT : RMat → RVec → RVec
  tridiageig : List Rat → List Rat → RMat × Int
  transferDisp : RVec → RVec
  getmodebcs : RMat → RMat → List (List ℕ) → RVec × RVec

/-- DLM.computeInfluenceMatrix from dlm4py.py: (re)allocate Dtrans as
needed and have the aerodynamic kernel fill it; the updated Dtrans is
the kernel output either way. -/
def computeInfluenceMatrix (ext : DLMExt) (s : DLM)
    (U omega_aero Mach : Rat) : DLM :=
  { s with Dtrans := some (ext.influencematrix omega_aero U Mach
      s.Xi s.Xo s.Xr s.dXav s.is_symmetric s.use_steady_kernel s.epstol) }

/-- DLM.getModeBCs from dlm4py.py: the aerodynamic kernel computes the
normal-wash pair from a surface displacement field. -/
def getModeBCs (ext : DLMExt) (s : DLM) (mode : RMat) : RVec × RVec :=
  ext.getmodebcs mode s.X s.conn

/-- F[i,i] += p**2 for every diagonal entry (line 317 of dlm4py.py). -/
def addDiag (F : CMat) (c : Cq) : CMat :=
  (F.zip (List.range F.length)).map
    (fun pr => lset pr.1 pr.2 (Cq.add (pr.1.getD pr.2 (0, 0)) c))

/-- wash = p*vwash/U + dwash, elementwise over matching real arrays. -/
def washOf (p : Cq) (U : Rat) (vwash dwash : RMat) : CMat :=
  List.zipWith (fun rv rd => List.zipWith
    (fun vw dw => (p.1 * vw / U + dw, p.2 * vw / U)) rv rd) vwash dwash

/-- Column extraction Cp[:,i]. -/
def getColC (m : CMat) (i : ℕ) : Except Err CVec :=
  m.mapM (fun row => lget row i)

/-- np.dot(modes.T, v) for a real matrix and a complex vector. -/
def matTvecC (modes : RMat) (v : CVec) : Except Err CVec :=
  if modes.length = v.length then
    .ok ((List.transpose modes).map (fun col =>
      (List.zipWith (fun r c => Cq.smul r c) col v).foldl Cq.add (0, 0)))
  else .error .dimMismatch

/-- F[:,i] += w for a complex matrix column. -/
def addToCol (F : CMat) (i : ℕ) (w : CVec) : Except Err CMat :=
  if F.length = w.length then
    (F.zip w).mapM (fun pr => do
      let old ← lget pr.1 i
      pure (lset pr.1 i (Cq.add old pr.2)))
  else .error .dimMismatch

/-- One turn of the force loop of computeFlutterMat (lines 335-338):
extract the pressure column, recover forces through the kernel, and add
the generalized forces to column i of F. -/
def flutterColStep (ext : DLMExt) (qinf : Rat) (X : RMat)
    (conn : List (List ℕ)) (Cp : CMat) (modes : RMat) (F : CMat)
    (i : ℕ) : Except Err CMat := do
  let col ← getColC Cp i
  let fv ← matTvecC modes ((ext.addcpforces qinf col X conn).flatten)
  addToCol F i fv

/-- DLM.computeFlutterMat from dlm4py.py:
F(p) = p^2 I + Kr - qinf modes^T D^-T wash, assembled per source order;
the only mutation of the DLM state is Dtrans, written by
computeInfluenceMatrix. -/
def computeFlutterMat (ext : DLMExt) (s : DLM) (U : Rat) (p : Cq)
    (qinf Mach : Rat) (nvecs : ℕ) (Kr : RMat) (vwash dwash : RMat)
    (modes : RMat) : Except Err CMat × DLM :=
  if Kr.length = nvecs ∧ ∀ row ∈ Kr, row.length = nvecs then
    let F := addDiag (Kr.map (fun row => row.map Cq.ofReal)) (Cq.mul p p)
    let s2 := computeInfluenceMatrix ext s U p.2 Mach
    if vwash.length = dwash.length ∧
        ∀ pr ∈ vwash.zip dwash, pr.1.length = pr.2.length then
      let wash := washOf p U vwash dwash
      let Cp := ext.linsolve (List.transpose (s2.Dtrans.getD [])) wash
      match (List.range nvecs).foldlM
          (flutterColStep ext qinf s.X s.conn Cp modes) F with
      | .ok F2 => (.ok F2, s2)
      | .error e => (.error e, s2)
    else (.error .dimMismatch, s2)
  else (.error .dimMismatch, s)

/-- DLM.computeFlutterDet from dlm4py.py: det F(p) / omega^(2 nvecs). -/
def computeFlutterDet (ext : DLMExt) (s : DLM) (U : Rat) (p : Cq)
    (qinf Mach : Rat) (nvecs : ℕ) (Kr : RMat) (vwash dwash : RMat)
    (modes : RMat) (omega : Rat) : Except Err Cq × DLM :=
  match computeFlutterMat ext s U p qinf Mach nvecs Kr vwash dwash modes with
  | (.ok F, s2) => (.ok (Cq.divR (ext.detC F) (omega ^ (2 * nvecs))), s2)
  | (.error e, s2) => (.error e, s2)

/-- The determinant call shared by computeFlutterMode and
velocitySweep: computeFlutterDet at the stored reduced model, with the
indexed access self.omega[kmode] evaluated first (an index error when
kmode is out of range, as in Python argument evaluation). -/
def modeDet (ext : DLMExt) (Uval qinf Mach : Rat) (kmode : ℕ) (p : Cq)
    (s : DLM) : Except Err Cq × DLM :=
  match lget s.omega kmode with
  | .error e => (.error e, s)
  | .ok omk => computeFlutterDet ext s Uval p qinf Mach s.Qm.length
      s.Kr s.Qm_vwash s.Qm_dwash s.Qm_modes omk

/-- The secant iteration of computeFlutterMode (lines 896-921), on
explicit fuel (the source cap of 50 iterations). -/
def modeSecantLoop (ext : DLMExt) (Uval qinf Mach : Rat) (kmode : ℕ)
    (tol : Rat) (det0 : Cq) :
    ℕ → Cq → Cq → Cq → Cq → DLM → Except Err Cq × DLM
  | 0, _, _, p2, _, s => (.ok p2, s)
  | k + 1, p1, det1, p2, det2, s =>
    let pnew := Cq.div (Cq.sub (Cq.mul p2 det1) (Cq.mul p1 det2))
      (Cq.sub det1 det2)
    let p1n := p2
    let det1n := det2
    let p2n := pnew
    match modeDet ext Uval qinf Mach kmode p2n s with
    | (.error e, s2) => (.error e, s2)
    | (.ok det2n, s2) =>
      if ext.cabs det2n < tol * ext.cabs det0 then (.ok p2n, s2)
      else modeSecantLoop ext Uval qinf Mach kmode tol det0 k
        p1n det1n p2n det2n s2

/-- DLM.computeFlutterMode from dlm4py.py.  The max_iters parameter is
accepted but overwritten to 50 inside the function (line 894). -/
def computeFlutterMode (ext : DLMExt) (s : DLM) (rho Uval Mach : Rat)
    (kmode : ℕ) (pinit : Option Cq) (_max_iters : ℕ) (tol : Rat) :
    Except Err Cq × DLM :=
  let pinitE : Except Err (Cq × Cq) :=
    match pinit with
    | none => do
      let om ← lget s.omega kmode
      pure ((-1, om), (-1, 1/1000 + om))
    | some p0 => pure (p0, Cq.add p0 (0, 1/1000))
  match pinitE with
  | .error e => (.error e, s)
  | .ok pp =>
    let qinf := 1/2 * rho * Uval ^ 2
    match modeDet ext Uval qinf Mach kmode pp.1 s with
    | (.error e, s1) => (.error e, s1)
    | (.ok det1, s1) =>
      match modeDet ext Uval qinf Mach kmode pp.2 s1 with
      | (.error e, s2) => (.error e, s2)
      | (.ok det2, s2) =>
        let det0 := det1
        modeSecantLoop ext Uval qinf Mach kmode tol det0 50
          pp.1 det1 pp.2 det2 s2

/-- The secant seeding of velocitySweep (lines 942-960): the pair
(p1, p2) as a function of the velocity index and the history of
converged roots for the mode; omegak is the mode natural frequency
used only in the i = 0 branch. -/
def seedPair (omegak : Rat) (pv : ℕ → Cq) (i : ℕ) : Cq × Cq :=
  let eps : Rat := 1/1000
  if i = 0 then
    let p1 : Cq := (-(1/10), omegak)
    (p1, Cq.add p1 (eps, eps))
  else if i = 1 then
    let p1 := pv 0
    (p1, Cq.add p1 (eps, eps))
  else if i = 2 then
    let p1 := Cq.sub (Cq.smul 2 (pv (i - 1))) (pv (i - 2))
    (p1, Cq.add p1 (eps, eps))
  else
    let p1 := Cq.add (Cq.sub (Cq.smul 3 (pv (i - 1)))
      (Cq.smul 3 (pv (i - 2)))) (pv (i - 3))
    (p1, Cq.add p1 (eps, eps))

/-- The inner secant iteration of velocitySweep (lines 975-998).  The
re-evaluation of the determinant at line 985 reads U[i] where U is an
unbound name (the argument of the function is Uvals): a name error on
the first pass through the loop body.  The code after that read is
dead but embedded for completeness. -/
def sweepSecantLoop (ext : DLMExt) (qinf Mach : Rat) (kmode i : ℕ)
    (det0 : Cq) :
    ℕ → Cq → Cq → Cq → Cq → DLM → Except Err Cq × DLM
  | 0, _, _, p2, _, s => (.ok p2, s)
  | k + 1, p1, det1, p2, det2, s =>
    let pnew := Cq.div (Cq.sub (Cq.mul p2 det1) (Cq.mul p1 det2))
      (Cq.sub det1 det2)
    let p1n := p2
    let det1n := det2
    let p2n := pnew
    match pyName (List Rat) "U" with
    | .error e => (.error e, s)
    | .ok uarr =>
      match lget uarr i with
      | .error e => (.error e, s)
      | .ok uU =>
        match modeDet ext uU qinf Mach kmode p2n s with
        | (.error e, s2) => (.error e, s2)
        | (.ok det2n, s2) =>
          if ext.cabs det2n < 1/1000000 * ext.cabs det0 then (.ok p2n, s2)
          else sweepSecantLoop ext qinf Mach kmode i det0 k
            p1n det1n p2n det2n s2

/-- The velocity loop of velocitySweep for one mode: per sample, seed
the secant pair, evaluate the two starting determinants, run the inner
iteration, and record the converged root. -/
def sweepVelLoop (ext : DLMExt) (rho Mach : Rat) (Uvals : List Rat)
    (kmode : ℕ) :
    List ℕ → (ℕ → ℕ → Cq) → DLM → Except Err (ℕ → ℕ → Cq) × DLM
  | [], pv, s => (.ok pv, s)
  | i :: rest, pv, s =>
    match lget Uvals i with
    | .error e => (.error e, s)
    | .ok Ui =>
      let qinf := 1/2 * rho * Ui ^ 2
      match (if i = 0 then
          (lget s.omega kmode).map (fun om => seedPair om (fun j => pv kmode j) 0)
        else .ok (seedPair 0 (fun j => pv kmode j) i)) with
      | .error e => (.error e, s)
      | .ok pp =>
        match modeDet ext Ui qinf Mach kmode pp.1 s with
        | (.error e, s1) => (.error e, s1)
        | (.ok det1, s1) =>
          match modeDet ext Ui qinf Mach kmode pp.2 s1 with
          | (.error e, s2) => (.error e, s2)
          | (.ok det2, s2) =>
            let det0 := det1
            match sweepSecantLoop ext qinf Mach kmode i det0 50
                pp.1 det1 pp.2 det2 s2 with
            | (.error e, s3) => (.error e, s3)
            | (.ok p2fin, s3) =>
              sweepVelLoop ext rho Mach Uvals kmode rest
                (upd2 pv kmode i p2fin) s3

/-- The per-mode summary print of velocitySweep (lines 1003-1006):
with no velocity samples the loop variable i is unbound (a name error
on i); otherwise i is still bound after the loop and the print reads
the unbound name U (a name error on U). -/
def sweepPrintTail (nvals : ℕ) : Except Err Unit :=
  match nvals with
  | 0 => .error (.nameError "i")
  | _ + 1 => .error (.nameError "U")

/-- The mode loop of velocitySweep. -/
def sweepModeLoop (ext : DLMExt) (rho Mach : Rat) (Uvals : List Rat) :
    List ℕ → (ℕ → ℕ → Cq) → DLM → Except Err (ℕ → ℕ → Cq) × DLM
  | [], pv, s => (.ok pv, s)
  | kmode :: rest, pv, s =>
    match sweepVelLoop ext rho Mach Uvals kmode
        (List.range Uvals.length) pv s with
    | (.error e, s1) => (.error e, s1)
    | (.ok pv1, s1) =>
      match sweepPrintTail Uvals.length with
      | .error e => (.error e, s1)
      | .ok _ => sweepModeLoop ext rho Mach Uvals rest pv1 s1

/-- DLM.velocitySweep from dlm4py.py. -/
def velocitySweep (ext : DLMExt) (s : DLM) (rho : Rat)
    (Uvals : List Rat) (Mach : Rat) (nmodes : ℕ) :
    Except Err CMat × DLM :=
  let nvals := Uvals.length
  match sweepModeLoop ext rho Mach Uvals (List.range nmodes)
      (fun _ _ => (0, 0)) s with
  | (.error e, s1) => (.error e, s1)
  | (.ok pv, s1) =>
    (.ok ((List.range nmodes).map (fun k =>
      (List.range nvals).map (fun i => pv k i))), s1)

/-- Concrete external collaborators for the counterexample runs: a
single-panel single-node aerodynamic model with constant kernels, a
two-degree-of-freedom structure, and trivial linear algebra oracles. -/
def extC : DLMExt where
  influencematrix := fun _ _ _ _ _ _ _ _ _ _ => [[(1, 0)]]
  linsolve := fun _ w => w
  addcpforces := fun _ _ _ _ => [[(0, 0), (0, 0), (0, 0)]]
  detC := fun _ => (1, 0)
  cabs := fun c => c.1
  rsqrt := fun _ => 1
  stiffMat := [[1, 0], [0, 4]]
  massMat := [[1, 0], [0, 1]]
  newVec := [0, 0]
  randVec := [1, 0]
  applyBCs := fun v => v
  gmresT := fun _ rhs => rhs
  tridiageig := fun _ _ => ([[1]], 0)
  transferDisp := fun _ => [1, 2, 3]
  getmodebcs := fun _ _ _ => ([1], [2])

/-- Concrete DLM state with one panel, one surface node, and a
one-vector reduced model, as left by a subspace setup. -/
def sC2 : DLM where
  is_symmetric := 1
  use_steady_kernel := true
  epstol := 1/1000000000000
  Dtrans := none
  npanels := 1
  nnodes := 1
  Xi := [[0, 0, 0]]
  Xo := [[0, 0, 0]]
  Xr := [[0, 0, 0]]
  dXav := [0]
  X := [[0, 0, 0]]
  conn := [[0, 0, 0, 0]]
  temp := none
  Vm := []
  kmat := [[1]]
  mmat := [[1]]
  mat := [[1]]
  Kr := [[1]]
  Qm := [[1]]
  Qm_modes := [[1], [0], [0]]
  Qm_vwash := [[1]]
  Qm_dwash := [[0]]
  omega := [1]

/-- Modelled from the spec, amended: the secant seeding rule of the
velocity sweep as the code implements it, written independently with
explicit component arithmetic: at i = 0 the pair is seeded from the
mode natural frequency; at i = 1 the first seed is exactly the
previously converged root; at i = 2 linear extrapolation; at i greater
than 2 cubic extrapolation; and in every case the second seed is the
first plus the fixed offset (1/1000, 1/1000). -/
def specSeedPair (omegak : Rat) (pv : ℕ → Cq) : ℕ → Cq × Cq
  | 0 => (((-1 : Rat)/10, omegak), ((-1 : Rat)/10 + 1/1000, omegak + 1/1000))
  | 1 => (pv 0, ((pv 0).1 + 1/1000, (pv 0).2 + 1/1000))
  | 2 =>
    ((2 * (pv 1).1 - (pv 0).1, 2 * (pv 1).2 - (pv 0).2),
     (2 * (pv 1).1 - (pv 0).1 + 1/1000, 2 * (pv 1).2 - (pv 0).2 + 1/1000))
  | (j + 3) =>
    let q : Cq := (3 * (pv (j + 2)).1 - 3 * (pv (j + 1)).1 + (pv j).1,
                   3 * (pv (j + 2)).2 - 3 * (pv (j + 1)).2 + (pv j).2)
    (q, (q.1 + 1/1000, q.2 + 1/1000))

/-! ### Frame preservation of the reduced model -/

/-- The reduced-model fields built by setUpSubspace that the
flutter-evaluation operations must leave unchanged. -/
def Frame (s t : DLM) : Prop :=
  t.Kr = s.Kr ∧ t.Qm = s.Qm ∧ t.Qm_modes = s.Qm_modes ∧
  t.Qm_vwash = s.Qm_vwash ∧ t.Qm_dwash = s.Qm_dwash ∧ t.omega = s.omega

/-! ### The shift-invert Lanczos subspace builder -/

/-- Matrix-level axpy of the TACS matrix capability:
mat.copyValues(kmat) followed by mat.axpy(alpha, mmat). -/
def mataxpy (alpha : Rat) (A B : RMat) : Except Err RMat :=
  if A.length = B.length ∧ ∀ pr ∈ A.zip B, pr.1.length = pr.2.length then
    .ok (List.zipWith (fun ra rb =>
      List.zipWith (fun a b => a + alpha * b) ra rb) A B)
  else .error .dimMismatch

/-- Matrix-vector product of the TACS matrix capability. -/
def matVec : RMat → RVec → Except Err RVec
  | [], _ => .ok []
  | row :: rest, v => do
    let d ← rdot row v
    let ds ← matVec rest v
    pure (d :: ds)

/-- Mutable state of one lanczos call: the subspace vectors, the
tridiagonal coefficients, and the workspace vector self.temp. -/
structure LzSt where
  Vm : List RVec
  alpha : List Rat
  beta : List Rat
  temp : RVec

/-- One turn of the full-orthogonalization loop of DLM.lanczos
(lines 746-753), for descending j. -/
def lanczosMGSStep (mmat : RMat) (i : ℕ) (st : LzSt) (j : ℕ) :
    Except Err LzSt := do
  let vip ← lget st.Vm (i + 1)
  let temp ← matVec mmat vip
  let vj ← lget st.Vm j
  let h ← rdot vj temp
  let vip2 ← raxpy (-h) vip vj
  pure ⟨lset st.Vm (i + 1) vip2,
    (if i = j then lset st.alpha i h else st.alpha), st.beta, temp⟩

/-- One turn of the Lanczos loop of DLM.lanczos (lines 735-758). -/
def lanczosStep (ext : DLMExt) (mat mmat : RMat) (st : LzSt) (i : ℕ) :
    Except Err LzSt := do
  let vi ← lget st.Vm i
  let temp1 ← matVec mmat vi
  let _ ← lget st.Vm (i + 1)
  let vip := ext.applyBCs (ext.gmresT mat temp1)
  let Vm1 := lset st.Vm (i + 1) vip
  let st2 ← ((List.range (i + 1)).reverse).foldlM (lanczosMGSStep mmat i)
    ⟨Vm1, st.alpha, st.beta, temp1⟩
  let vip2 ← lget st2.Vm (i + 1)
  let temp2 ← matVec mmat vip2
  let bd ← rdot vip2 temp2
  let bi := ext.rsqrt bd
  let beta2 := lset st2.beta i bi
  let vip3 := rscale (1 / bi) vip2
  pure ⟨lset st2.Vm (i + 1) vip3, st2.alpha, beta2, temp2⟩

/-- DLM.lanczos from dlm4py.py: build the M-orthogonal subspace with
full orthogonalization; returns the final loop state and the factored
shifted operator K - sigma M. -/
def lanczos (ext : DLMExt) (kmat mmat : RMat) (VmIn : List RVec)
    (sigma : Rat) : Except Err (LzSt × RMat) := do
  let alpha := List.replicate (VmIn.length - 1) (0 : Rat)
  let beta := List.replicate (VmIn.length - 1) (0 : Rat)
  let mat ← mataxpy (-sigma) kmat mmat
  let v0a ← lget VmIn 0
  let v0 := ext.applyBCs v0a
  let Vm1 := lset VmIn 0 v0
  let temp1 ← matVec mmat v0
  let b0d ← rdot v0 temp1
  let b0 := ext.rsqrt b0d
  let Vm2 := lset Vm1 0 (rscale (1 / b0) v0)
  let stf ← (List.range (Vm2.length - 1)).foldlM (lanczosStep ext mat mmat)
    ⟨Vm2, alpha, beta, temp1⟩
  pure (stf, mat)

/-- np.argsort on a list of reals (stable). -/
def argsortR (xs : List Rat) : List ℕ :=
  (List.range xs.length).mergeSort (fun a b => xs.getD a 0 ≤ xs.getD b 0)

/-- np.sum(rows, axis=0). -/
def sumCols (rows : RMat) : RVec :=
  match rows with
  | [] => []
  | r0 :: rest => rest.foldl (fun acc row => List.zipWith (· + ·) acc row) r0

/-- The convergence test of setUpSubspace (lines 619-622): the r lowest
modes must satisfy abs(b0 * last eigenvector component) at or below
tol; any larger residual clears the flag. -/
def convCheck (r : ℕ) (tol : Rat) (b0 : Rat) (ev : RMat) :
    Except Err Bool :=
  (List.range r).foldlM (fun convrg j => do
    let row ← lget ev j
    let lastv ← llast row
    pure (if |b0 * lastv| > tol then false else convrg)) true

/-- One turn of the restart combination loop of setUpSubspace
(lines 633-634): Vm[0] += weights[j] * Vm[j]. -/
def restartStep (weights : RVec) (Vm : List RVec) (j : ℕ) :
    Except Err (List RVec) := do
  let w ← lget weights j
  let vj ← lget Vm j
  let v0c ← lget Vm 0
  let v0n ← raxpy w v0c vj
  pure (lset Vm 0 v0n)

/-- Mutable state of the outer restart loop of setUpSubspace; omegaL is
None until the first iteration defines the local variable omega, and
broke records that the loop was left through the convergence break. -/
structure SubSt where
  Vm : List RVec
  sigma : Rat
  eigvecs : RMat
  omegaL : Option (List Rat)
  temp : RVec
  mat : RMat
  broke : Bool

/-- One outer restart iteration of setUpSubspace (lines 598-636). -/
def subspaceIter (ext : DLMExt) (kmat mmat : RMat) (m r : ℕ)
    (tol : Rat) (st : SubSt) : Except Err SubSt :=
  if st.broke then pure st
  else do
    let lz ← lanczos ext kmat mmat st.Vm st.sigma
    let b0 ← llast lz.1.beta
    let ev0 := (ext.tridiageig lz.1.alpha lz.1.beta).1
    let omega0 := lz.1.alpha.map (fun a => ext.rsqrt (1 / a + st.sigma))
    let indices := argsortR omega0
    let omega1 := indices.map (fun ix => omega0.getD ix 0)
    let ev1 := indices.map (fun ix => ev0.getD ix [])
    let convrg ← convCheck r tol b0 ev1
    if convrg then
      pure ⟨lz.1.Vm, st.sigma, ev1, some omega1, lz.1.temp, lz.2, true⟩
    else do
      let om0 ← lget omega1 0
      let sigma2 := 19/20 * om0 ^ 2
      let weights := sumCols (ev1.take r)
      let w0 ← lget weights 0
      let v0 ← lget lz.1.Vm 0
      let Vm2 := lset lz.1.Vm 0 (rscale w0 v0)
      let Vm3 ← (List.range (m - 1)).foldlM (restartStep weights) Vm2
      let v0f ← lget Vm3 0
      pure ⟨lset Vm3 0 (ext.applyBCs v0f), sigma2, ev1, some omega1,
        lz.1.temp, lz.2, false⟩

/-- A Python local variable that may not have been assigned: reading it
raises a name error when unset. -/
def pyVar {α : Type} (o : Option α) (s : String) : Except Err α :=
  match o with
  | some a => .ok a
  | none => pyName α s

/-- Kr[i,j] = Kr[j,i] = v on the (total) matrix representation. -/
def msetSym (A : RMat) (i j : ℕ) (v : Rat) : RMat :=
  let A1 := A.set i ((A.getD i []).set j v)
  A1.set j ((A1.getD j []).set i v)

/-- Inner loop of the Galerkin Kr assembly (lines 665-667). -/
def krStepInner (VmL : List RVec) (temp2 : RVec) (i : ℕ) (Kr : RMat)
    (j : ℕ) : Except Err RMat := do
  let vj ← lget VmL j
  let kij ← rdot temp2 vj
  pure (msetSym Kr i j kij)

/-- Outer loop of the Galerkin Kr assembly (lines 663-667): temp holds
K Vm[i], then the symmetric row of inner products. -/
def krStep (kmat : RMat) (VmL : List RVec) (acc : RMat × RVec)
    (i : ℕ) : Except Err (RMat × RVec) := do
  let vi ← lget VmL i
  let temp2 ← matVec kmat vi
  let Kr2 ← (List.range (i + 1)).foldlM (krStepInner VmL temp2 i) acc.1
  pure (Kr2, temp2)

/-- One eigenvector-basis vector of the use_modes branch
(lines 642-651): normalize the reduced eigenvector, then form the full
vector as the combination of the Lanczos vectors. -/
def qmStep (ext : DLMExt) (VmL : List RVec) (m : ℕ) (eigvecs : RMat)
    (acc : List RVec) (i : ℕ) : Except Err (List RVec) := do
  let row ← lget eigvecs i
  let nrm := ext.rsqrt ((row.map (fun t => t ^ 2)).foldl (· + ·) 0)
  let row2 := row.map (fun t => t / nrm)
  let qr ← (List.range (m - 1)).foldlM (fun q j => do
      let evij ← lget row2 j
      let vj ← lget VmL j
      raxpy evij q vj) ext.newVec
  pure (acc ++ [qr])

/-- The diagonal reduced stiffness of the use_modes branch
(lines 654-658): Kr[k,k] = omega[k] squared. -/
def krDiag (omegaL : List Rat) (r : ℕ) : Except Err RMat :=
  (List.range r).foldlM (fun acc k => do
    let ok2 ← lget omegaL k
    pure (acc ++ [(List.range r).map
      (fun j => if j = k then ok2 ^ 2 else (0 : Rat))])) []

/-- The two output-basis branches of setUpSubspace (lines 640-670):
either the normalized eigenvector basis with diagonal Kr, or the raw
Lanczos basis with the Galerkin projection of K. -/
def buildBasis (ext : DLMExt) (kmat : RMat) (m r : ℕ)
    (use_modes : Bool) (stf : SubSt) :
    Except Err (RMat × List RVec × RVec) :=
  if use_modes then do
    let QmL ← (List.range r).foldlM (qmStep ext stf.Vm m stf.eigvecs) []
    let omegaL ← pyVar stf.omegaL "omega"
    let KrM ← krDiag omegaL r
    pure (KrM, QmL, stf.temp)
  else do
    let Kr0 : RMat := List.replicate m (List.replicate m (0 : Rat))
    let krf ← (List.range m).foldlM (krStep kmat stf.Vm) (Kr0, stf.temp)
    pure (krf.1, stf.Vm, krf.2)

/-- disp.reshape(nnodes, 3). -/
def reshape3 (disp : RVec) (nnodes : ℕ) : Except Err RMat :=
  if disp.length = 3 * nnodes then
    .ok ((List.range nnodes).map (fun i =>
      [disp.getD (3 * i) 0, disp.getD (3 * i + 1) 0,
       disp.getD (3 * i + 2) 0]))
  else .error .dimMismatch

/-- One turn of the modal-wash loop of setUpSubspace (lines 679-690):
transfer the basis vector to the surface, compute the wash pair, and
record the columns. -/
def washStep (ext : DLMExt) (s : DLM) (QmL : List RVec)
    (acc : RMat × RMat × RMat) (k : ℕ) :
    Except Err (RMat × RMat × RMat) := do
  let qk ← lget QmL k
  let disp := ext.transferDisp qk
  let mode ← reshape3 disp s.nnodes
  let vd := getModeBCs ext s mode
  if vd.1.length = s.npanels ∧ vd.2.length = s.npanels then
    pure (acc.1 ++ [disp], acc.2.1 ++ [vd.1], acc.2.2 ++ [vd.2])
  else .error .dimMismatch

/-- DLM.setUpSubspace from dlm4py.py.  On exhausting max_iters without
the convergence test passing, control falls out of the loop with no
check of the flag: the basis assembly below runs unconditionally and
the function returns normally.  With max_iters = 0 the local variable
omega was never assigned and its first read raises a name error. -/
def setUpSubspace (ext : DLMExt) (s : DLM) (m r : ℕ) (sigma tol : Rat)
    (max_iters : ℕ) (use_modes : Bool) : Except Err DLM := do
  let kmat := ext.stiffMat
  let mmat := ext.massMat
  let temp := match s.temp with
    | none => ext.newVec
    | some t => t
  let Vm1 := if s.Vm.length < m then
      s.Vm ++ List.replicate (m - s.Vm.length) ext.newVec
    else s.Vm
  let _ ← lget Vm1 0
  let Vm2 := lset Vm1 0 ext.randVec
  let eigvecs0 : RMat := List.replicate (m - 1)
    (List.replicate (m - 1) (0 : Rat))
  let stf ← (List.range max_iters).foldlM
    (fun st _ => subspaceIter ext kmat mmat m r tol st)
    ⟨Vm2, sigma, eigvecs0, none, temp, s.mat, false⟩
  let bb ← buildBasis ext kmat m r use_modes stf
  let w ← (List.range bb.2.1.length).foldlM (washStep ext s bb.2.1)
    ([], [], [])
  let omegaL ← pyVar stf.omegaL "omega"
  pure { s with
    temp := some bb.2.2, Vm := stf.Vm, kmat := kmat, mmat := mmat,
    mat := stf.mat, Kr := bb.1, Qm := bb.2.1,
    Qm_modes := List.transpose w.1,
    Qm_vwash := List.transpose w.2.1,
    Qm_dwash := List.transpose w.2.2,
    omega := omegaL.take r }


/-! ### Helper lemmas for the axpy algebra and the error monad -/

theorem raxpy_eq {a b : RVec} (alpha : Rat) (h : a.length = b.length) :
    raxpy alpha a b = .ok (axL alpha a b) := by
  simp [raxpy, axL, h]

theorem axL_length {a b : RVec} (alpha : Rat) (h : a.length = b.length) :
    (axL alpha a b).length = a.length := by
  simp [axL, h]

theorem axL_axL_same {a b : RVec} (alpha beta : Rat) (h : a.length = b.length) :
    axL beta (axL alpha a b) b = axL (alpha + beta) a b := by
  induction a generalizing b with
  | nil => simp [axL]
  | cons x xs ih =>
    cases b with
    | nil => simp at h
    | cons y ys =>
      simp only [List.length_cons, Nat.succ.injEq] at h
      simp only [axL, List.zipWith_cons_cons, List.cons.injEq]
      exact ⟨by ring, ih h⟩

theorem axL_zero {a b : RVec} (h : a.length = b.length) :
    axL 0 a b = a := by
  induction a generalizing b with
  | nil => simp [axL]
  | cons x xs ih =>
    cases b with
    | nil => simp at h
    | cons y ys =>
      simp only [List.length_cons, Nat.succ.injEq] at h
      simp only [axL, List.zipWith_cons_cons, List.cons.injEq]
      exact ⟨by ring, ih h⟩

theorem axL_cancel {a b : RVec} (alpha : Rat) (h : a.length = b.length) :
    axL (-alpha) (axL alpha a b) b = a := by
  rw [axL_axL_same alpha (-alpha) h, add_neg_cancel, axL_zero h]

theorem axL_comm {a u v : RVec} (alpha beta : Rat)
    (hu : a.length = u.length) (hv : a.length = v.length) :
    axL beta (axL alpha a u) v = axL alpha (axL beta a v) u := by
  induction a generalizing u v with
  | nil => simp [axL]
  | cons x xs ih =>
    cases u with
    | nil => simp at hu
    | cons y ys =>
      cases v with
      | nil => simp at hv
      | cons z zs =>
        simp only [List.length_cons, Nat.succ.injEq] at hu hv
        simp only [axL, List.zipWith_cons_cons, List.cons.injEq]
        exact ⟨by ring, ih hu hv⟩

@[simp] theorem okBind {α β : Type} (a : α) (f : α → Except Err β) :
    (Except.ok a >>= f) = f a := rfl

@[simp] theorem errBind {α β : Type} (e : Err) (f : α → Except Err β) :
    ((Except.error e : Except Err α) >>= f) = Except.error e := rfl

@[simp] theorem pureOk {α : Type} (a : α) :
    (pure a : Except Err α) = Except.ok a := rfl

@[simp] theorem okBindE {α β : Type} (a : α) (f : α → Except Err β) :
    (Except.ok a).bind f = f a := rfl

@[simp] theorem errBindE {α β : Type} (e : Err) (f : α → Except Err β) :
    (Except.error e : Except Err α).bind f = Except.error e := rfl

/-! ### Claims about the ComplexVector layer -/

/-- C5 counterexample: on self = (real [1,0], imag [0,1]) and
other = (real [1,0], imag [0,-1]) the code returns 0 + 0i, not the
1 + 1i the claim asserts. -/
theorem dot_c5_counterexample :
    JDVec.dot ⟨[1, 0], some [0, 1]⟩ ⟨[1, 0], some [0, -1]⟩ = .ok (0, 0) ∧
    JDVec.dot ⟨[1, 0], some [0, 1]⟩ ⟨[1, 0], some [0, -1]⟩
      ≠ .ok ((1 : Rat), (1 : Rat)) := by
  have h : JDVec.dot ⟨[1, 0], some [0, 1]⟩ ⟨[1, 0], some [0, -1]⟩
      = .ok (0, 0) := by
    norm_num [JDVec.dot, rdot]
  refine ⟨h, ?_⟩
  rw [h]
  norm_num

/-- C5 amended: on those inputs the code returns exactly the value of
the stated Hermitian formula, which is 0 + 0i (not 1 + 1i). -/
theorem dot_c5_amended :
    JDVec.dot ⟨[1, 0], some [0, 1]⟩ ⟨[1, 0], some [0, -1]⟩
      = .ok (specHermitianDot [1, 0] [0, 1] [1, 0] [0, -1]) ∧
    specHermitianDot [1, 0] [0, 1] [1, 0] [0, -1] = (0, 0) := by
  constructor
  · norm_num [JDVec.dot, rdot, specHermitianDot]
  · norm_num [specHermitianDot]

/-- C6 counterexample: when the source vector has no imaginary part and
self also has none, copy raises an attribute error (None.zero()) instead
of being a no-op on the imaginary part. -/
theorem copy_c6_counterexample :
    JDVec.copy ⟨[1], none⟩ ⟨[2], none⟩ = .error (.attrError "zero") := by
  norm_num [JDVec.copy, rcopyValues]

/-- C6 amended: copy sets the real part to a copy of the source real
part; when the source has an imaginary part and self has a slot it is
copied; when the source lacks one and self has a slot it is zeroed;
but when the source lacks one and self has no slot, the unconditional
self.xc.zero() raises an attribute error instead of being a no-op. -/
theorem copy_characterization (self vec : JDVec)
    (h : self.xr.length = vec.xr.length) :
    (self.xc = none → vec.xc = none →
      self.copy vec = .error (.attrError "zero")) ∧
    (∀ sc, self.xc = some sc → vec.xc = none →
      self.copy vec = .ok ⟨vec.xr, some (rzero sc)⟩) ∧
    (∀ sc vc, self.xc = some sc → vec.xc = some vc → sc.length = vc.length →
      self.copy vec = .ok ⟨vec.xr, some vc⟩) := by
  obtain ⟨a, oc⟩ := self
  obtain ⟨b, owc⟩ := vec
  simp only at h
  refine ⟨?_, ?_, ?_⟩
  · intro h1 h2
    simp only at h1 h2
    subst h1; subst h2
    simp [JDVec.copy, rcopyValues, h]
  · intro sc h1 h2
    simp only at h1 h2
    subst h1; subst h2
    simp [JDVec.copy, rcopyValues, h]
  · intro sc vc h1 h2 hlen
    simp only at h1 h2
    subst h1; subst h2
    simp [JDVec.copy, rcopyValues, h, hlen]

/-- C6 witness: a concrete application of the characterization in the
zeroing case. -/
theorem copy_characterization_witness :
    JDVec.copy ⟨[5], some [7]⟩ ⟨[2], none⟩ = .ok ⟨[2], some [0]⟩ := by
  have h := (copy_characterization ⟨[5], some [7]⟩ ⟨[2], none⟩ rfl).2.1
  simpa [rzero] using h [7] rfl rfl

/-- C10: scale multiplies both components by alpha.real only; the
imaginary part of alpha is silently discarded (no error), so the result
coincides with scaling by the real part alone. -/
theorem scale_uses_real_part_only (alpha : Cq) (v : JDVec) :
    v.scale alpha = v.scale (alpha.1, 0) ∧
    (v.scale alpha).xr = rscale alpha.1 v.xr ∧
    (v.scale alpha).xc = v.xc.map (rscale alpha.1) := by
  exact ⟨rfl, rfl, rfl⟩

/-- C7: for a vector with both components present, axpy by alpha
followed by axpy by -alpha restores the original vector exactly (exact
rational arithmetic models the within-1e-12 floating-point claim). -/
theorem axpy_roundtrip (v w : JDVec) (vc : RVec) (hvc : v.xc = some vc)
    (alpha : Cq) (halpha : alpha ≠ (0, 0))
    (hwnz : w.xr.any (fun t => t != 0) = true ∨
      (w.xc.getD []).any (fun t => t != 0) = true)
    (hr : v.xr.length = w.xr.length) (hc : vc.length = w.xr.length)
    (hwc : ∀ wc, w.xc = some wc → wc.length = w.xr.length) :
    (v.axpy alpha w).bind (fun v1 => v1.axpy (Cq.neg alpha) w) = .ok v := by
  obtain ⟨a, oc⟩ := v
  obtain ⟨b, owc⟩ := w
  simp only at hvc hr hc hwc
  subst hvc
  have e1 : raxpy alpha.1 a b = .ok (axL alpha.1 a b) := raxpy_eq _ hr
  have la1 : (axL alpha.1 a b).length = a.length := axL_length _ hr
  by_cases h2 : alpha.2 = 0
  · -- alpha purely real: only the real-scalar updates fire
    cases owc with
    | none =>
      have e2 : raxpy (-alpha.1) (axL alpha.1 a b) b
          = .ok (axL (-alpha.1) (axL alpha.1 a b) b) :=
        raxpy_eq _ (by rw [la1]; exact hr)
      simp [JDVec.axpy, JDVec.axpyXc1, Cq.neg, h2, e1, e2, axL_cancel alpha.1 hr]
    | some wc =>
      have hw : wc.length = b.length := hwc wc rfl
      have e3 : raxpy alpha.1 vc wc = .ok (axL alpha.1 vc wc) :=
        raxpy_eq _ (by rw [hw]; exact hc)
      have e2 : raxpy (-alpha.1) (axL alpha.1 a b) b
          = .ok (axL (-alpha.1) (axL alpha.1 a b) b) :=
        raxpy_eq _ (by rw [la1]; exact hr)
      have e4 : raxpy (-alpha.1) (axL alpha.1 vc wc) wc
          = .ok (axL (-alpha.1) (axL alpha.1 vc wc) wc) :=
        raxpy_eq _ (by rw [axL_length _ (by rw [hw]; exact hc), hw]; exact hc)
      simp [JDVec.axpy, JDVec.axpyXc1, Cq.neg, h2, e1, e2, e3, e4, axL_cancel alpha.1 hr,
        axL_cancel alpha.1 (show vc.length = wc.length by rw [hw]; exact hc)]
  · -- alpha has a nonzero imaginary part
    cases owc with
    | none =>
      have e3 : raxpy alpha.2 vc b = .ok (axL alpha.2 vc b) := raxpy_eq _ hc
      have e2 : raxpy (-alpha.1) (axL alpha.1 a b) b
          = .ok (axL (-alpha.1) (axL alpha.1 a b) b) :=
        raxpy_eq _ (by rw [la1]; exact hr)
      have e4 : raxpy (-alpha.2) (axL alpha.2 vc b) b
          = .ok (axL (-alpha.2) (axL alpha.2 vc b) b) :=
        raxpy_eq _ (by rw [axL_length _ hc]; exact hc)
      simp [JDVec.axpy, JDVec.axpyXc1, Cq.neg, h2, e1, e2, e3, e4, axL_cancel alpha.1 hr,
        axL_cancel alpha.2 hc]
    | some wc =>
      have hw : wc.length = b.length := hwc wc rfl
      have haw : a.length = wc.length := by rw [hw]; exact hr
      have hcw : vc.length = wc.length := by rw [hw]; exact hc
      have e3 : raxpy alpha.2 vc b = .ok (axL alpha.2 vc b) := raxpy_eq _ hc
      have e5 : raxpy alpha.1 (axL alpha.2 vc b) wc
          = .ok (axL alpha.1 (axL alpha.2 vc b) wc) :=
        raxpy_eq _ (by rw [axL_length _ hc]; exact hcw)
      have e6 : raxpy (-alpha.2) (axL alpha.1 a b) wc
          = .ok (axL (-alpha.2) (axL alpha.1 a b) wc) :=
        raxpy_eq _ (by rw [la1]; exact haw)
      -- first axpy gives xr2 and xc2; now the inverse pass
      have l_xr2 : (axL (-alpha.2) (axL alpha.1 a b) wc).length = a.length := by
        rw [axL_length _ (by rw [la1]; exact haw), la1]
      have l_xc2 : (axL alpha.1 (axL alpha.2 vc b) wc).length = vc.length := by
        rw [axL_length _ (by rw [axL_length _ hc]; exact hcw), axL_length _ hc]
      have e7 : raxpy (-alpha.1) (axL (-alpha.2) (axL alpha.1 a b) wc) b
          = .ok (axL (-alpha.1) (axL (-alpha.2) (axL alpha.1 a b) wc) b) :=
        raxpy_eq _ (by rw [l_xr2]; exact hr)
      have e8 : raxpy (-alpha.2) (axL alpha.1 (axL alpha.2 vc b) wc) b
          = .ok (axL (-alpha.2) (axL alpha.1 (axL alpha.2 vc b) wc) b) :=
        raxpy_eq _ (by rw [l_xc2]; exact hc)
      have e9 : raxpy (-alpha.1)
            (axL (-alpha.2) (axL alpha.1 (axL alpha.2 vc b) wc) b) wc
          = .ok (axL (-alpha.1)
            (axL (-alpha.2) (axL alpha.1 (axL alpha.2 vc b) wc) b) wc) :=
        raxpy_eq _ (by
          rw [axL_length _ (by rw [l_xc2]; exact hc), l_xc2]; exact hcw)
      have e10 : raxpy alpha.2
            (axL (-alpha.1) (axL (-alpha.2) (axL alpha.1 a b) wc) b) wc
          = .ok (axL alpha.2
            (axL (-alpha.1) (axL (-alpha.2) (axL alpha.1 a b) wc) b) wc) :=
        raxpy_eq _ (by
          rw [axL_length _ (by rw [l_xr2]; exact hr), l_xr2]; exact haw)
      have hxr : axL alpha.2
          (axL (-alpha.1) (axL (-alpha.2) (axL alpha.1 a b) wc) b) wc = a := by
        rw [axL_comm (-alpha.2) (-alpha.1) (by rw [la1]; exact haw)
          (by rw [la1]; exact hr), axL_cancel alpha.1 hr,
          axL_axL_same (-alpha.2) alpha.2 haw, neg_add_cancel, axL_zero haw]
      have hxc : axL (-alpha.1)
          (axL (-alpha.2) (axL alpha.1 (axL alpha.2 vc b) wc) b) wc = vc := by
        rw [axL_comm alpha.1 (-alpha.2) (by rw [axL_length _ hc]; exact hcw)
          (by rw [axL_length _ hc]; exact hc), axL_cancel alpha.2 hc,
          axL_cancel alpha.1 hcw]
      simp [JDVec.axpy, JDVec.axpyXc1, Cq.neg, h2, e1, e3, e5, e6, e7, e8, e9, e10, hxr, hxc]

/-- C7 witness: concrete round trip with nonzero complex alpha and a
fully complex w. -/
theorem axpy_roundtrip_witness :
    ((JDVec.mk [1, 2] (some [3, 4])).axpy (5, 7) ⟨[1, 1], some [2, -1]⟩).bind
      (fun v1 => v1.axpy (Cq.neg (5, 7)) ⟨[1, 1], some [2, -1]⟩)
      = .ok ⟨[1, 2], some [3, 4]⟩ := by
  exact axpy_roundtrip ⟨[1, 2], some [3, 4]⟩ ⟨[1, 1], some [2, -1]⟩ [3, 4]
    rfl (5, 7) (by norm_num) (Or.inl (by norm_num)) rfl rfl
    (by intro wc hwc; cases hwc; rfl)

/-! ### Benign-error lemmas: no statement raises Breakdown or
NonConvergence -/

theorem benign_ok {α : Type} (a : α) : Benign (Except.ok a) := by
  intro e h
  exact Except.noConfusion h

theorem benign_err {e : Err} (h : benign e = true) :
    Benign (Except.error e : Except Err α) := by
  intro e2 h2
  simp only [Except.error.injEq] at h2
  subst h2
  exact h

theorem benign_bind {α β : Type} {m : Except Err α}
    {f : α → Except Err β} (hm : Benign m) (hf : ∀ a, Benign (f a)) :
    Benign (m >>= f) := by
  cases m with
  | ok a => simpa using hf a
  | error e =>
    intro e2 h2
    simp only [errBind, Except.error.injEq] at h2
    subst h2
    exact hm e rfl

theorem benign_foldlM {α β : Type} {f : α → β → Except Err α}
    (hf : ∀ acc b, Benign (f acc b)) :
    ∀ (l : List β) (init : α), Benign (l.foldlM f init)
  | [], init => by simpa using benign_ok init
  | b :: t, init => by
    rw [List.foldlM_cons]
    exact benign_bind (hf init b) (fun acc => benign_foldlM hf t acc)

theorem benign_ite {α : Type} (c : Prop) [Decidable c]
    {t e : Except Err α} (ht : Benign t) (he : Benign e) :
    Benign (if c then t else e) := by
  by_cases h : c
  · simpa [h] using ht
  · simpa [h] using he

theorem benign_pyName {α : Type} (s : String) : Benign (pyName α s) :=
  benign_err rfl

theorem benign_lget {α : Type} (xs : List α) (i : ℕ) :
    Benign (lget xs i) := by
  intro e h
  unfold lget at h
  rcases hx : xs.get? i with _ | a <;> rw [hx] at h
  · simp only [Except.error.injEq] at h
    subst h
    rfl
  · exact Except.noConfusion h

theorem benign_llast {α : Type} (xs : List α) : Benign (llast xs) := by
  intro e h
  unfold llast at h
  rcases hx : xs.getLast? with _ | a <;> rw [hx] at h
  · simp only [Except.error.injEq] at h
    subst h
    rfl
  · exact Except.noConfusion h

theorem benign_rcopyValues (a b : RVec) : Benign (rcopyValues a b) := by
  unfold rcopyValues
  exact benign_ite _ (benign_ok _) (benign_err rfl)

theorem benign_raxpy (alpha : Rat) (a b : RVec) :
    Benign (raxpy alpha a b) := by
  unfold raxpy
  exact benign_ite _ (benign_ok _) (benign_err rfl)

theorem benign_rdot (a b : RVec) : Benign (rdot a b) := by
  unfold rdot
  exact benign_ite _ (benign_ok _) (benign_err rfl)

theorem benign_copy (s v : JDVec) : Benign (s.copy v) := by
  unfold JDVec.copy
  apply benign_bind (benign_rcopyValues _ _)
  intro xr
  cases v.xc with
  | some vc =>
    cases s.xc with
    | some sc =>
      exact benign_bind (benign_rcopyValues _ _) (fun _ => benign_ok _)
    | none => exact benign_err rfl
  | none =>
    cases s.xc with
    | some sc => exact benign_ok _
    | none => exact benign_err rfl

theorem benign_dot (s v : JDVec) : Benign (s.dot v) := by
  unfold JDVec.dot
  cases s.xc with
  | some sc =>
    cases v.xc with
    | some vc =>
      exact benign_bind (benign_rdot _ _) (fun _ =>
        benign_bind (benign_rdot _ _) (fun _ =>
          benign_bind (benign_rdot _ _) (fun _ =>
            benign_bind (benign_rdot _ _) (fun _ => benign_ok _))))
    | none =>
      exact benign_bind (benign_rdot _ _) (fun _ =>
        benign_bind (benign_rdot _ _) (fun _ => benign_ok _))
  | none =>
    cases v.xc with
    | some vc =>
      exact benign_bind (benign_rdot _ _) (fun _ =>
        benign_bind (benign_rdot _ _) (fun _ => benign_ok _))
    | none => exact benign_bind (benign_rdot _ _) (fun _ => benign_ok _)

theorem benign_axpyXc1 (oc : Option RVec) (alpha : Cq) (vxr : RVec) :
    Benign (JDVec.axpyXc1 oc alpha vxr) := by
  unfold JDVec.axpyXc1
  apply benign_ite
  · cases oc with
    | some sc =>
      exact benign_bind (benign_raxpy _ _ _) (fun _ => benign_ok _)
    | none => exact benign_err rfl
  · exact benign_ok _

theorem benign_axpy (s : JDVec) (alpha : Cq) (v : JDVec) :
    Benign (s.axpy alpha v) := by
  unfold JDVec.axpy
  apply benign_bind (benign_raxpy _ _ _)
  intro xr1
  apply benign_bind (benign_axpyXc1 _ _ _)
  intro xc1
  cases v.xc with
  | some vc =>
    cases xc1 with
    | some sc =>
      apply benign_bind (benign_raxpy _ _ _)
      intro xc2
      apply benign_ite
      · exact benign_bind (benign_raxpy _ _ _) (fun _ => benign_ok _)
      · exact benign_ok _
    | none => exact benign_err rfl
  | none => exact benign_ok _

theorem benign_gmresMGS (W : List JDVec) (i : ℕ)
    (acc : (ℕ → ℕ → Cq) × JDVec) (j : ℕ) :
    Benign (gmresMGS W i acc j) := by
  unfold gmresMGS
  exact benign_bind (benign_lget _ _) (fun wj =>
    benign_bind (benign_dot _ _) (fun hji =>
      benign_bind (benign_axpy _ _ _) (fun wip => benign_ok _)))

theorem benign_gmresIter (np_sqrt : Cq → Cq)
    (matMult pcApply : JDVec → JDVec) (st : GmresLoopSt) (i : ℕ) :
    Benign (gmresIter np_sqrt matMult pcApply st i) := by
  unfold gmresIter
  exact benign_bind (benign_lget _ _) (fun wi =>
    benign_bind (benign_lget _ _) (fun _ =>
      benign_bind (benign_lget _ _) (fun _ =>
        benign_bind (benign_foldlM (benign_gmresMGS _ _) _ _) (fun acc =>
          benign_bind (benign_dot _ _) (fun dd =>
            benign_bind (benign_pyName _) (fun hpiv =>
              benign_bind (benign_pyName _) (fun rold => benign_ok _)))))))

theorem benign_gmres_solve (np_sqrt : Cq → Cq) (g : GMRES) (b x : JDVec) :
    Benign (GMRES.solve np_sqrt g b x) := by
  unfold GMRES.solve
  exact benign_bind (benign_lget _ _) (fun w0 =>
    benign_bind (benign_copy _ _) (fun w0c =>
      benign_bind (benign_dot _ _) (fun d =>
        benign_bind (benign_foldlM (benign_gmresIter _ _ _) _ _) (fun st =>
          benign_bind (benign_pyName _) (fun niters =>
            benign_bind (benign_foldlM (fun xv i =>
                benign_bind (benign_lget _ _) (fun zi => benign_axpy _ _ _))
                _ _)
              (fun x2 => benign_ok _))))))

theorem reportsErr_false_of_benign {α : Type} {m : Except Err α}
    (hm : Benign m) {e0 : Err} (h0 : benign e0 = false) :
    reportsErr e0 m = false := by
  cases m with
  | ok a => rfl
  | error e =>
    unfold reportsErr
    by_cases h : e = e0
    · subst h
      exact absurd (hm e rfl) (by simp [h0])
    · simp [h]

/-! ### Success lemmas under the shape invariant -/

theorem rdot_eq {a b : RVec} (h : a.length = b.length) :
    rdot a b = .ok (dotL a b) := by
  simp [rdot, dotL, h]

theorem lget_ok {α : Type} {xs : List α} {i : ℕ} (h : i < xs.length) :
    ∃ a, lget xs i = .ok a ∧ a ∈ xs := by
  refine ⟨xs.get ⟨i, h⟩, ?_, List.get_mem xs i h⟩
  unfold lget
  rw [List.get?_eq_get h]

theorem shaped_scale {n : ℕ} (v : JDVec) (alpha : Cq) (h : shaped n v) :
    shaped n (v.scale alpha) := by
  obtain ⟨h1, c, hc, hc1⟩ := h
  exact ⟨by simp [JDVec.scale, rscale, h1], rscale alpha.1 c,
    by simp [JDVec.scale, hc], by simp [rscale, hc1]⟩

theorem shaped_zero {n : ℕ} (v : JDVec) (h : shaped n v) :
    shaped n v.zero := by
  obtain ⟨h1, c, hc, hc1⟩ := h
  exact ⟨by simp [JDVec.zero, rzero, h1], rzero c,
    by simp [JDVec.zero, hc], by simp [rzero, hc1]⟩

theorem copy_ok {n : ℕ} {s v : JDVec} (hs : shaped n s) (hv : shaped n v) :
    ∃ u, s.copy v = .ok u ∧ shaped n u := by
  obtain ⟨hs1, c, hsc, hc1⟩ := hs
  obtain ⟨hv1, d, hvc, hd1⟩ := hv
  refine ⟨⟨v.xr, some d⟩, ?_, hv1, d, rfl, hd1⟩
  simp [JDVec.copy, rcopyValues, hs1, hv1, hsc, hvc, hc1, hd1]

theorem dot_ok {n : ℕ} {s v : JDVec} (hs : shaped n s) (hv : shaped n v) :
    ∃ q, s.dot v = .ok q := by
  obtain ⟨hs1, c, hsc, hc1⟩ := hs
  obtain ⟨hv1, d, hvc, hd1⟩ := hv
  have r1 : rdot s.xr v.xr = .ok (dotL s.xr v.xr) :=
    rdot_eq (by rw [hs1, hv1])
  have r2 : rdot c d = .ok (dotL c d) := rdot_eq (by rw [hc1, hd1])
  have r3 : rdot s.xr d = .ok (dotL s.xr d) := rdot_eq (by rw [hs1, hd1])
  have r4 : rdot c v.xr = .ok (dotL c v.xr) := rdot_eq (by rw [hc1, hv1])
  exact ⟨(dotL s.xr v.xr + dotL c d, dotL s.xr d - dotL c v.xr),
    by simp [JDVec.dot, hsc, hvc, r1, r2, r3, r4]⟩

theorem axpy_ok {n : ℕ} {s v : JDVec} (alpha : Cq)
    (hs : shaped n s) (hv : shaped n v) :
    ∃ u, s.axpy alpha v = .ok u ∧ shaped n u := by
  obtain ⟨hs1, c, hsc, hc1⟩ := hs
  obtain ⟨hv1, d, hvc, hd1⟩ := hv
  have e1 : raxpy alpha.1 s.xr v.xr = .ok (axL alpha.1 s.xr v.xr) :=
    raxpy_eq _ (by rw [hs1, hv1])
  have l1 : (axL alpha.1 s.xr v.xr).length = n := by
    rw [axL_length _ (by rw [hs1, hv1]), hs1]
  by_cases h2 : alpha.2 = 0
  · have e2 : raxpy alpha.1 c d = .ok (axL alpha.1 c d) :=
      raxpy_eq _ (by rw [hc1, hd1])
    refine ⟨⟨axL alpha.1 s.xr v.xr, some (axL alpha.1 c d)⟩, ?_, l1,
      axL alpha.1 c d, rfl, by rw [axL_length _ (by rw [hc1, hd1]), hc1]⟩
    simp [JDVec.axpy, JDVec.axpyXc1, h2, hsc, hvc, e1, e2]
  · have e3 : raxpy alpha.2 c v.xr = .ok (axL alpha.2 c v.xr) :=
      raxpy_eq _ (by rw [hc1, hv1])
    have l3 : (axL alpha.2 c v.xr).length = n := by
      rw [axL_length _ (by rw [hc1, hv1]), hc1]
    have e4 : raxpy alpha.1 (axL alpha.2 c v.xr) d
        = .ok (axL alpha.1 (axL alpha.2 c v.xr) d) :=
      raxpy_eq _ (by rw [l3, hd1])
    have e5 : raxpy (-alpha.2) (axL alpha.1 s.xr v.xr) d
        = .ok (axL (-alpha.2) (axL alpha.1 s.xr v.xr) d) :=
      raxpy_eq _ (by rw [l1, hd1])
    refine ⟨⟨axL (-alpha.2) (axL alpha.1 s.xr v.xr) d,
      some (axL alpha.1 (axL alpha.2 c v.xr) d)⟩, ?_,
      by rw [axL_length _ (by rw [l1, hd1]), l1],
      axL alpha.1 (axL alpha.2 c v.xr) d, rfl,
      by rw [axL_length _ (by rw [l3, hd1]), l3]⟩
    simp [JDVec.axpy, JDVec.axpyXc1, h2, hsc, hvc, e1, e3, e4, e5]

theorem mgs_fold_ok {n : ℕ} (W : List JDVec) (i : ℕ)
    (hW : ∀ w ∈ W, shaped n w) (l : List ℕ) :
    ∀ (acc : (ℕ → ℕ → Cq) × JDVec), (∀ j ∈ l, j < W.length) →
      shaped n acc.2 →
      ∃ acc2, l.foldlM (gmresMGS W i) acc = .ok acc2 ∧ shaped n acc2.2 := by
  induction l with
  | nil =>
    intro acc _ hacc
    exact ⟨acc, by simp, hacc⟩
  | cons j t ih =>
    intro acc hl hacc
    obtain ⟨wj, hwj, hwjm⟩ := lget_ok (hl j (by simp))
    obtain ⟨q, hq⟩ := dot_ok (hW wj hwjm) hacc
    obtain ⟨u, hu, hus⟩ := axpy_ok (Cq.neg q) hacc (hW wj hwjm)
    rw [List.foldlM_cons]
    have hstep : gmresMGS W i acc j = .ok (upd2 acc.1 j i q, u) := by
      simp [gmresMGS, hwj, hq, hu]
    rw [hstep, okBind]
    exact ih _ (fun j2 hj2 => hl j2 (by simp [hj2])) hus

theorem gmresIter_raises_H {n : ℕ} (np : Cq → Cq) (mm pc : JDVec → JDVec)
    (st : GmresLoopSt) (i : ℕ)
    (hWlen : i + 1 < st.W.length) (hZlen : i < st.Z.length)
    (hW : ∀ w ∈ st.W, shaped n w)
    (hmm : ∀ v, shaped n v → shaped n (mm v))
    (hpc : ∀ v, shaped n v → shaped n (pc v)) :
    gmresIter np mm pc st i = .error (.nameError "H") := by
  obtain ⟨wi, hwi, hwim⟩ := lget_ok (Nat.lt_of_succ_lt hWlen)
  obtain ⟨zi0, hzi, _⟩ := lget_ok hZlen
  obtain ⟨wip0, hwip, _⟩ := lget_ok hWlen
  have hwip_sh : shaped n (mm (pc wi)) := hmm _ (hpc _ (hW _ hwim))
  have hW2 : ∀ w ∈ lset st.W (i + 1) (mm (pc wi)), shaped n w := by
    intro w hw
    rcases List.mem_or_eq_of_mem_set hw with h | h
    · exact hW _ h
    · subst h
      exact hwip_sh
  obtain ⟨acc2, hacc2, hacc2s⟩ := mgs_fold_ok (lset st.W (i + 1) (mm (pc wi)))
    i hW2 (List.range (i + 1)) (st.H, mm (pc wi))
    (fun j hj => by
      simp only [lset, List.length_set]
      have := List.mem_range.mp hj
      omega)
    hwip_sh
  obtain ⟨dd, hdd⟩ := dot_ok hacc2s hacc2s
  unfold gmresIter
  rw [hwi]
  simp only [okBind]
  rw [hzi]
  simp only [okBind]
  rw [hwip]
  simp only [okBind]
  rw [hacc2]
  simp only [okBind]
  rw [hdd]
  simp only [okBind]
  rfl

theorem gmres_solve_raises_H {n : ℕ} (np : Cq → Cq) (g : GMRES)
    (b x : JDVec)
    (hWl : 2 ≤ g.W.length) (hZl : 1 ≤ g.Z.length) (hms : 1 ≤ g.msub)
    (hWs : ∀ v ∈ g.W, shaped n v) (hb : shaped n b)
    (hmm : ∀ v, shaped n v → shaped n (g.matMult v))
    (hpc : ∀ v, shaped n v → shaped n (g.pcApply v)) :
    GMRES.solve np g b x = .error (.nameError "H") := by
  obtain ⟨w0, hw0, hw0m⟩ := lget_ok (show 0 < g.W.length by omega)
  obtain ⟨w0c, hw0c, hw0cs⟩ := copy_ok (hWs _ hw0m) hb
  obtain ⟨d, hd⟩ := dot_ok hw0cs hw0cs
  have hscale : shaped n (w0c.scale (Cq.inv (np d))) :=
    shaped_scale _ _ hw0cs
  have hW2 : ∀ v ∈ lset g.W 0 (w0c.scale (Cq.inv (np d))), shaped n v := by
    intro v hv
    rcases List.mem_or_eq_of_mem_set hv with h | h
    · exact hWs _ h
    · subst h
      exact hscale
  obtain ⟨k, hk⟩ : ∃ k, g.msub = k + 1 := ⟨g.msub - 1, by omega⟩
  have hiter : gmresIter np g.matMult g.pcApply
      ⟨lset g.W 0 (w0c.scale (Cq.inv (np d))), g.Z, g.H,
        upd1 g.res 0 (np d), g.Qsin, g.Qcos⟩ 0
      = .error (.nameError "H") := by
    apply gmresIter_raises_H np g.matMult g.pcApply _ 0
      (show 0 + 1 < (lset g.W 0 (w0c.scale (Cq.inv (np d)))).length from by
        simp only [lset, List.length_set]; omega)
      (show 0 < g.Z.length from by omega) hW2 hmm hpc
  unfold GMRES.solve
  rw [hw0]
  simp only [okBind]
  rw [hw0c]
  simp only [okBind]
  rw [hd]
  simp only [okBind]
  rw [hk, List.range_succ_eq_map, List.foldlM_cons, hiter]
  rfl

theorem shaped_gw : shaped 1 gw := ⟨rfl, [0], rfl, rfl⟩

theorem gC1_shapes : ∀ v ∈ gC1.W, shaped 1 v := by
  intro v hv
  simp only [gC1, GMRES.init, List.mem_cons, List.not_mem_nil,
    or_false] at hv
  rcases hv with rfl | rfl <;> exact shaped_gw

/-- C1: GMRES.solve as written never completes its m Arnoldi steps and
never returns the iteration count: the normalization statement of its
first iteration reads the unbound name H (written H[i+1,i] instead of
self.H[i+1,i]) and raises a name error; the residual update reads the
unbound name res, and the return value niters is defined nowhere.
Concretely, with the identity operator and preconditioner, m = 1 and a
well-formed subspace, solve raises NameError on the name H. -/
theorem gmres_solve_c1_nameerror :
    GMRES.solve id gC1 ⟨[2], some [0]⟩ gw = .error (.nameError "H") := by
  exact gmres_solve_raises_H (n := 1) id gC1 ⟨[2], some [0]⟩ gw
    (by rfl) (by rfl) (by rfl) gC1_shapes ⟨rfl, [0], rfl, rfl⟩
    (fun v h => h) (fun v h => h)

/-- C4 counterexample: an exact-breakdown input (identity operator and
preconditioner, b equal to the single Krylov vector, so the
orthogonalized W[1] is exactly zero and H[1,0] = 0).  The claim says
this is detected and reported as Breakdown; instead the code raises
NameError on the unbound name H before any pivot check, and no
Breakdown is ever reported. -/
theorem gmres_c4_counterexample :
    GMRES.solve id gC1 gw gw = .error (.nameError "H") ∧
    reportsErr Err.breakdown (GMRES.solve id gC1 gw gw) = false := by
  have h : GMRES.solve id gC1 gw gw = .error (.nameError "H") := by
    exact gmres_solve_raises_H (n := 1) id gC1 gw gw
      (by rfl) (by rfl) (by rfl) gC1_shapes shaped_gw
      (fun v h => h) (fun v h => h)
  exact ⟨h, by rw [h]; rfl⟩

/-- C4 amended: GMRES.solve contains no near-zero-pivot detection at
all; no execution of solve ever reports Breakdown (the only failures it
can produce are Python runtime errors, and as written every call fails
with a name error before the rotation divisions are even reached). -/
theorem gmres_no_breakdown_report (np : Cq → Cq) (g : GMRES)
    (b x : JDVec) :
    reportsErr Err.breakdown (GMRES.solve np g b x) = false :=
  reportsErr_false_of_benign (benign_gmres_solve np g b x) rfl

/-- C2: in the code as written, the velocity-sweep inner iteration does
not evaluate the flutter determinant at the velocity sample Uvals[i]:
the re-evaluation at line 985 reads the unbound name U and raises a
name error on the first pass.  Concretely, a sweep over one mode and
one velocity sample on a well-formed one-panel model crashes with
NameError on U. -/
theorem velocitySweep_c2_nameerror :
    (velocitySweep extC sC2 1 [1] 0 1).1 = .error (.nameError "U") := rfl

/-- C8 counterexample: with one prior converged root (i = 1), the first
secant seed p1 is exactly the stored previous root, not the previous
root plus an offset: with history value 2 + 3i, p1 = 2 + 3i, and p1
differs from the offset value (2 + 3i) + (1/1000)(1 + i). -/
theorem seedPair_c8_counterexample :
    (seedPair 1 (fun _ => (2, 3)) 1).1 = (2, 3) ∧
    (seedPair 1 (fun _ => (2, 3)) 1).1 ≠ Cq.add (2, 3) (1/1000, 1/1000) := by
  constructor
  · rfl
  · norm_num [seedPair, Cq.add]

/-- C8 amended: the seeding rule, with the i = 1 case corrected: p1 is
the previously converged root itself (the offset enters only through
p2); the i = 0, i = 2 and i greater than 2 cases and the fixed
(1/1000, 1/1000) perturbation of p2 are as claimed. -/
theorem seedPair_matches_spec (omegak : Rat) (pv : ℕ → Cq) (i : ℕ) :
    seedPair omegak pv i = specSeedPair omegak pv i := by
  match i with
  | 0 => norm_num [seedPair, specSeedPair, Cq.add]
  | 1 => norm_num [seedPair, specSeedPair, Cq.add]
  | 2 => norm_num [seedPair, specSeedPair, Cq.add, Cq.sub, Cq.smul]
  | (j + 3) =>
    have h1 : ¬(j + 3 = 1) := by omega
    have h2 : ¬(j + 3 = 2) := by omega
    have h3 : j + 3 - 2 = j + 1 := by omega
    norm_num [seedPair, specSeedPair, Cq.add, Cq.sub, Cq.smul, h1, h2, h3]

theorem frame_refl (s : DLM) : Frame s s :=
  ⟨rfl, rfl, rfl, rfl, rfl, rfl⟩

theorem frame_trans {s t u : DLM} (h1 : Frame s t) (h2 : Frame t u) :
    Frame s u := by
  obtain ⟨a1, b1, c1, d1, e1, f1⟩ := h1
  obtain ⟨a2, b2, c2, d2, e2, f2⟩ := h2
  exact ⟨a2.trans a1, b2.trans b1, c2.trans c1, d2.trans d1,
    e2.trans e1, f2.trans f1⟩

theorem frame_influence (ext : DLMExt) (s : DLM) (U om Mach : Rat) :
    Frame s (computeInfluenceMatrix ext s U om Mach) :=
  ⟨rfl, rfl, rfl, rfl, rfl, rfl⟩

theorem frame_flutterMat (ext : DLMExt) (s : DLM) (U : Rat) (p : Cq)
    (qinf Mach : Rat) (nvecs : ℕ) (Kr : RMat) (vwash dwash : RMat)
    (modes : RMat) :
    Frame s (computeFlutterMat ext s U p qinf Mach nvecs Kr vwash
      dwash modes).2 := by
  unfold computeFlutterMat
  split
  · dsimp only
    split
    · split <;> exact frame_influence ext s U p.2 Mach
    · exact frame_influence ext s U p.2 Mach
  · exact frame_refl s

theorem frame_flutterMatEq (ext : DLMExt) (s : DLM) (U : Rat) (p : Cq)
    (qinf Mach : Rat) (nvecs : ℕ) (Kr : RMat) (vwash dwash : RMat)
    (modes : RMat) {r : Except Err CMat} {s2 : DLM}
    (h : computeFlutterMat ext s U p qinf Mach nvecs Kr vwash dwash
      modes = (r, s2)) : Frame s s2 := by
  have hf := frame_flutterMat ext s U p qinf Mach nvecs Kr vwash
    dwash modes
  rw [h] at hf
  exact hf

theorem frame_flutterDet (ext : DLMExt) (s : DLM) (U : Rat) (p : Cq)
    (qinf Mach : Rat) (nvecs : ℕ) (Kr : RMat) (vwash dwash : RMat)
    (modes : RMat) (omega : Rat) :
    Frame s (computeFlutterDet ext s U p qinf Mach nvecs Kr vwash
      dwash modes omega).2 := by
  unfold computeFlutterDet
  split <;> rename_i s2 heq
  · exact frame_flutterMatEq ext s U p qinf Mach nvecs Kr vwash dwash
      modes heq
  · exact frame_flutterMatEq ext s U p qinf Mach nvecs Kr vwash dwash
      modes heq

theorem frame_flutterDetEq (ext : DLMExt) (s : DLM) (U : Rat) (p : Cq)
    (qinf Mach : Rat) (nvecs : ℕ) (Kr : RMat) (vwash dwash : RMat)
    (modes : RMat) (omega : Rat) {r : Except Err Cq} {s2 : DLM}
    (h : computeFlutterDet ext s U p qinf Mach nvecs Kr vwash dwash
      modes omega = (r, s2)) : Frame s s2 := by
  have hf := frame_flutterDet ext s U p qinf Mach nvecs Kr vwash
    dwash modes omega
  rw [h] at hf
  exact hf

theorem frame_modeDet (ext : DLMExt) (Uval qinf Mach : Rat) (kmode : ℕ)
    (p : Cq) (s : DLM) :
    Frame s (modeDet ext Uval qinf Mach kmode p s).2 := by
  unfold modeDet
  split
  · exact frame_refl s
  · exact frame_flutterDet ext s Uval p qinf Mach s.Qm.length s.Kr
      s.Qm_vwash s.Qm_dwash s.Qm_modes _

theorem frame_modeDetEq (ext : DLMExt) (Uval qinf Mach : Rat)
    (kmode : ℕ) (p : Cq) (s : DLM) {r : Except Err Cq} {s2 : DLM}
    (h : modeDet ext Uval qinf Mach kmode p s = (r, s2)) :
    Frame s s2 := by
  have hf := frame_modeDet ext Uval qinf Mach kmode p s
  rw [h] at hf
  exact hf

theorem frame_modeSecantLoop (ext : DLMExt) (Uval qinf Mach : Rat)
    (kmode : ℕ) (tol : Rat) (det0 : Cq) :
    ∀ (k : ℕ) (p1 det1 p2 det2 : Cq) (s : DLM),
    Frame s (modeSecantLoop ext Uval qinf Mach kmode tol det0
      k p1 det1 p2 det2 s).2 := by
  intro k
  induction k with
  | zero => intro p1 det1 p2 det2 s; exact frame_refl s
  | succ k ih =>
    intro p1 det1 p2 det2 s
    unfold modeSecantLoop
    dsimp only
    split <;> rename_i s2 heq
    · exact frame_modeDetEq ext Uval qinf Mach kmode _ s heq
    · rename_i det2n
      split
      · exact frame_modeDetEq ext Uval qinf Mach kmode _ s heq
      · exact frame_trans (frame_modeDetEq ext Uval qinf Mach kmode _ s heq)
          (ih _ _ _ _ s2)

theorem frame_modeSecantLoopEq (ext : DLMExt) (Uval qinf Mach : Rat)
    (kmode : ℕ) (tol : Rat) (det0 : Cq) (k : ℕ)
    (p1 det1 p2 det2 : Cq) (s : DLM) {r : Except Err Cq} {s2 : DLM}
    (h : modeSecantLoop ext Uval qinf Mach kmode tol det0
      k p1 det1 p2 det2 s = (r, s2)) : Frame s s2 := by
  have hf := frame_modeSecantLoop ext Uval qinf Mach kmode tol det0
    k p1 det1 p2 det2 s
  rw [h] at hf
  exact hf

theorem frame_computeFlutterMode (ext : DLMExt) (s : DLM)
    (rho Uval Mach : Rat) (kmode : ℕ) (pinit : Option Cq)
    (mi : ℕ) (tol : Rat) :
    Frame s (computeFlutterMode ext s rho Uval Mach kmode pinit
      mi tol).2 := by
  unfold computeFlutterMode
  dsimp only
  split
  · exact frame_refl s
  · rename_i pp hpe
    split <;> rename_i s1 heq1
    · exact frame_modeDetEq ext Uval _ Mach kmode _ s heq1
    · rename_i det1
      split <;> rename_i s2 heq2
      · exact frame_trans (frame_modeDetEq ext Uval _ Mach kmode _ s heq1)
          (frame_modeDetEq ext Uval _ Mach kmode _ s1 heq2)
      · rename_i det2
        exact frame_trans (frame_modeDetEq ext Uval _ Mach kmode _ s heq1)
          (frame_trans (frame_modeDetEq ext Uval _ Mach kmode _ s1 heq2)
            (frame_modeSecantLoop ext Uval _ Mach kmode tol det1 50
              pp.1 det1 pp.2 det2 s2))

theorem frame_sweepSecantLoop (ext : DLMExt) (qinf Mach : Rat)
    (kmode i : ℕ) (det0 : Cq) :
    ∀ (k : ℕ) (p1 det1 p2 det2 : Cq) (s : DLM),
    Frame s (sweepSecantLoop ext qinf Mach kmode i det0
      k p1 det1 p2 det2 s).2 := by
  intro k
  cases k with
  | zero => intro p1 det1 p2 det2 s; exact frame_refl s
  | succ k =>
    intro p1 det1 p2 det2 s
    simp only [sweepSecantLoop, pyName]
    exact frame_refl s

theorem frame_sweepSecantLoopEq (ext : DLMExt) (qinf Mach : Rat)
    (kmode i : ℕ) (det0 : Cq) (k : ℕ) (p1 det1 p2 det2 : Cq)
    (s : DLM) {r : Except Err Cq} {s2 : DLM}
    (h : sweepSecantLoop ext qinf Mach kmode i det0
      k p1 det1 p2 det2 s = (r, s2)) : Frame s s2 := by
  have hf := frame_sweepSecantLoop ext qinf Mach kmode i det0
    k p1 det1 p2 det2 s
  rw [h] at hf
  exact hf

theorem frame_sweepVelLoop (ext : DLMExt) (rho Mach : Rat)
    (Uvals : List Rat) (kmode : ℕ) :
    ∀ (l : List ℕ) (pv : ℕ → ℕ → Cq) (s : DLM),
    Frame s (sweepVelLoop ext rho Mach Uvals kmode l pv s).2 := by
  intro l
  induction l with
  | nil => intro pv s; exact frame_refl s
  | cons i rest ih =>
    intro pv s
    unfold sweepVelLoop
    split
    · exact frame_refl s
    · rename_i Ui hUi
      dsimp only
      split
      · exact frame_refl s
      · rename_i pp hps
        split <;> rename_i s1 heq1
        · exact frame_modeDetEq ext Ui _ Mach kmode _ s heq1
        · rename_i det1
          split <;> rename_i s2 heq2
          · exact frame_trans (frame_modeDetEq ext Ui _ Mach kmode _ s heq1)
              (frame_modeDetEq ext Ui _ Mach kmode _ s1 heq2)
          · rename_i det2
            split <;> rename_i s3 heq3
            · exact frame_trans
                (frame_modeDetEq ext Ui _ Mach kmode _ s heq1)
                (frame_trans
                  (frame_modeDetEq ext Ui _ Mach kmode _ s1 heq2)
                  (frame_sweepSecantLoopEq ext _ Mach kmode i det1 50
                    pp.1 det1 pp.2 det2 s2 heq3))
            · rename_i p2fin
              exact frame_trans
                (frame_modeDetEq ext Ui _ Mach kmode _ s heq1)
                (frame_trans
                  (frame_modeDetEq ext Ui _ Mach kmode _ s1 heq2)
                  (frame_trans
                    (frame_sweepSecantLoopEq ext _ Mach kmode i det1 50
                      pp.1 det1 pp.2 det2 s2 heq3)
                    (ih _ s3)))

theorem frame_sweepVelLoopEq (ext : DLMExt) (rho Mach : Rat)
    (Uvals : List Rat) (kmode : ℕ) (l : List ℕ) (pv : ℕ → ℕ → Cq)
    (s : DLM) {r : Except Err (ℕ → ℕ → Cq)} {s2 : DLM}
    (h : sweepVelLoop ext rho Mach Uvals kmode l pv s = (r, s2)) :
    Frame s s2 := by
  have hf := frame_sweepVelLoop ext rho Mach Uvals kmode l pv s
  rw [h] at hf
  exact hf

theorem frame_sweepModeLoop (ext : DLMExt) (rho Mach : Rat)
    (Uvals : List Rat) :
    ∀ (l : List ℕ) (pv : ℕ → ℕ → Cq) (s : DLM),
    Frame s (sweepModeLoop ext rho Mach Uvals l pv s).2 := by
  intro l
  induction l with
  | nil => intro pv s; exact frame_refl s
  | cons kmode rest ih =>
    intro pv s
    unfold sweepModeLoop
    split <;> rename_i s1 heq1
    · exact frame_sweepVelLoopEq ext rho Mach Uvals kmode _ pv s heq1
    · rename_i pv1
      split
      · exact frame_sweepVelLoopEq ext rho Mach Uvals kmode _ pv s heq1
      · exact frame_trans
          (frame_sweepVelLoopEq ext rho Mach Uvals kmode _ pv s heq1)
          (ih pv1 s1)

theorem frame_velocitySweep (ext : DLMExt) (s : DLM) (rho : Rat)
    (Uvals : List Rat) (Mach : Rat) (nmodes : ℕ) :
    Frame s (velocitySweep ext s rho Uvals Mach nmodes).2 := by
  unfold velocitySweep
  dsimp only
  have hf := frame_sweepModeLoop ext rho Mach Uvals
    (List.range nmodes) (fun _ _ => (0, 0)) s
  split <;> rename_i s1 heq <;> rw [heq] at hf <;> exact hf

theorem flutter_ops_preserve_reduced_model :
    (∀ (ext : DLMExt) (s : DLM) (U : Rat) (p : Cq) (qinf Mach : Rat)
      (nvecs : ℕ) (Kr : RMat) (vwash dwash modes : RMat),
      Frame s (computeFlutterMat ext s U p qinf Mach nvecs Kr vwash
        dwash modes).2) ∧
    (∀ (ext : DLMExt) (s : DLM) (U : Rat) (p : Cq) (qinf Mach : Rat)
      (nvecs : ℕ) (Kr : RMat) (vwash dwash modes : RMat) (om : Rat),
      Frame s (computeFlutterDet ext s U p qinf Mach nvecs Kr vwash
        dwash modes om).2) ∧
    (∀ (ext : DLMExt) (s : DLM) (rho Uval Mach : Rat) (kmode : ℕ)
      (pinit : Option Cq) (mi : ℕ) (tol : Rat),
      Frame s (computeFlutterMode ext s rho Uval Mach kmode pinit
        mi tol).2) ∧
    (∀ (ext : DLMExt) (s : DLM) (rho : Rat) (Uvals : List Rat)
      (Mach : Rat) (nmodes : ℕ),
      Frame s (velocitySweep ext s rho Uvals Mach nmodes).2) :=
  ⟨fun ext s U p qinf Mach nvecs Kr vwash dwash modes =>
      frame_flutterMat ext s U p qinf Mach nvecs Kr vwash dwash modes,
   fun ext s U p qinf Mach nvecs Kr vwash dwash modes om =>
      frame_flutterDet ext s U p qinf Mach nvecs Kr vwash dwash modes om,
   fun ext s rho Uval Mach kmode pinit mi tol =>
      frame_computeFlutterMode ext s rho Uval Mach kmode pinit mi tol,
   fun ext s rho Uvals Mach nmodes =>
      frame_velocitySweep ext s rho Uvals Mach nmodes⟩

/-! ### Claims about setUpSubspace -/

theorem reportsErr_false_of_isOk {α : Type} {m : Except Err α}
    (h : isOkE m = true) (e0 : Err) : reportsErr e0 m = false := by
  cases m with
  | ok a => rfl
  | error e => simp [isOkE] at h

theorem benign_matVec : ∀ (m : RMat) (v : RVec), Benign (matVec m v)
  | [], _ => benign_ok []
  | row :: rest, v =>
    benign_bind (benign_rdot row v) (fun d =>
      benign_bind (benign_matVec rest v) (fun ds => benign_ok (d :: ds)))

theorem benign_mataxpy (alpha : Rat) (A B : RMat) :
    Benign (mataxpy alpha A B) := by
  unfold mataxpy
  exact benign_ite _ (benign_ok _) (benign_err rfl)

theorem benign_lanczosMGSStep (mmat : RMat) (i : ℕ) (st : LzSt) (j : ℕ) :
    Benign (lanczosMGSStep mmat i st j) := by
  unfold lanczosMGSStep
  exact benign_bind (benign_lget _ _) (fun vip =>
    benign_bind (benign_matVec _ _) (fun temp =>
      benign_bind (benign_lget _ _) (fun vj =>
        benign_bind (benign_rdot _ _) (fun h =>
          benign_bind (benign_raxpy _ _ _) (fun vip2 => benign_ok _)))))

theorem benign_lanczosStep (ext : DLMExt) (mat mmat : RMat)
    (st : LzSt) (i : ℕ) : Benign (lanczosStep ext mat mmat st i) := by
  unfold lanczosStep
  exact benign_bind (benign_lget _ _) (fun vi =>
    benign_bind (benign_matVec _ _) (fun temp1 =>
      benign_bind (benign_lget _ _) (fun _ =>
        benign_bind (benign_foldlM (benign_lanczosMGSStep mmat i) _ _)
          (fun st2 =>
            benign_bind (benign_lget _ _) (fun vip2 =>
              benign_bind (benign_matVec _ _) (fun temp2 =>
                benign_bind (benign_rdot _ _) (fun bd => benign_ok _)))))))

theorem benign_lanczos (ext : DLMExt) (kmat mmat : RMat)
    (VmIn : List RVec) (sigma : Rat) :
    Benign (lanczos ext kmat mmat VmIn sigma) := by
  unfold lanczos
  exact benign_bind (benign_mataxpy _ _ _) (fun mat =>
    benign_bind (benign_lget _ _) (fun v0a =>
      benign_bind (benign_matVec _ _) (fun temp1 =>
        benign_bind (benign_rdot _ _) (fun b0d =>
          benign_bind (benign_foldlM (benign_lanczosStep ext mat mmat) _ _)
            (fun stf => benign_ok _)))))

theorem benign_convCheck (r : ℕ) (tol : Rat) (b0 : Rat) (ev : RMat) :
    Benign (convCheck r tol b0 ev) := by
  unfold convCheck
  apply benign_foldlM
  intro convrg j
  exact benign_bind (benign_lget _ _) (fun row =>
    benign_bind (benign_llast _) (fun lastv => benign_ok _))

theorem benign_restartStep (weights : RVec) (Vm : List RVec) (j : ℕ) :
    Benign (restartStep weights Vm j) := by
  unfold restartStep
  exact benign_bind (benign_lget _ _) (fun w =>
    benign_bind (benign_lget _ _) (fun vj =>
      benign_bind (benign_lget _ _) (fun v0c =>
        benign_bind (benign_raxpy _ _ _) (fun v0n => benign_ok _))))

theorem benign_subspaceIter (ext : DLMExt) (kmat mmat : RMat)
    (m r : ℕ) (tol : Rat) (st : SubSt) :
    Benign (subspaceIter ext kmat mmat m r tol st) := by
  unfold subspaceIter
  apply benign_ite
  · exact benign_ok _
  · apply benign_bind (benign_lanczos ext kmat mmat st.Vm st.sigma)
    intro lz
    apply benign_bind (benign_llast _)
    intro b0
    apply benign_bind (benign_convCheck _ _ _ _)
    intro convrg
    apply benign_ite
    · exact benign_ok _
    · exact benign_bind (benign_lget _ _) (fun om0 =>
        benign_bind (benign_lget _ _) (fun w0 =>
          benign_bind (benign_lget _ _) (fun v0 =>
            benign_bind (benign_foldlM (benign_restartStep _) _ _)
              (fun Vm3 =>
                benign_bind (benign_lget _ _) (fun v0f => benign_ok _)))))

theorem benign_pyVar {α : Type} (o : Option α) (s : String) :
    Benign (pyVar o s) := by
  unfold pyVar
  cases o with
  | some a => exact benign_ok a
  | none => exact benign_pyName s

theorem benign_krStepInner (VmL : List RVec) (temp2 : RVec) (i : ℕ)
    (Kr : RMat) (j : ℕ) : Benign (krStepInner VmL temp2 i Kr j) := by
  unfold krStepInner
  exact benign_bind (benign_lget _ _) (fun vj =>
    benign_bind (benign_rdot _ _) (fun kij => benign_ok _))

theorem benign_krStep (kmat : RMat) (VmL : List RVec)
    (acc : RMat × RVec) (i : ℕ) : Benign (krStep kmat VmL acc i) := by
  unfold krStep
  exact benign_bind (benign_lget _ _) (fun vi =>
    benign_bind (benign_matVec _ _) (fun temp2 =>
      benign_bind (benign_foldlM (benign_krStepInner VmL temp2 i) _ _)
        (fun Kr2 => benign_ok _)))

theorem benign_qmStep (ext : DLMExt) (VmL : List RVec) (m : ℕ)
    (eigvecs : RMat) (acc : List RVec) (i : ℕ) :
    Benign (qmStep ext VmL m eigvecs acc i) := by
  unfold qmStep
  apply benign_bind (benign_lget _ _)
  intro row
  apply benign_bind
  · apply benign_foldlM
    intro q j
    exact benign_bind (benign_lget _ _) (fun evij =>
      benign_bind (benign_lget _ _) (fun vj => benign_raxpy _ _ _))
  · intro qr
    exact benign_ok _

theorem benign_krDiag (omegaL : List Rat) (r : ℕ) :
    Benign (krDiag omegaL r) := by
  unfold krDiag
  apply benign_foldlM
  intro acc k
  exact benign_bind (benign_lget _ _) (fun ok2 => benign_ok _)

theorem benign_buildBasis (ext : DLMExt) (kmat : RMat) (m r : ℕ)
    (use_modes : Bool) (stf : SubSt) :
    Benign (buildBasis ext kmat m r use_modes stf) := by
  unfold buildBasis
  apply benign_ite
  · exact benign_bind (benign_foldlM (benign_qmStep ext stf.Vm m
      stf.eigvecs) _ _) (fun QmL =>
      benign_bind (benign_pyVar _ _) (fun omegaL =>
        benign_bind (benign_krDiag _ _) (fun KrM => benign_ok _)))
  · exact benign_bind (benign_foldlM (benign_krStep kmat stf.Vm) _ _)
      (fun krf => benign_ok _)

theorem benign_reshape3 (disp : RVec) (nnodes : ℕ) :
    Benign (reshape3 disp nnodes) := by
  unfold reshape3
  exact benign_ite _ (benign_ok _) (benign_err rfl)

theorem benign_washStep (ext : DLMExt) (s : DLM) (QmL : List RVec)
    (acc : RMat × RMat × RMat) (k : ℕ) :
    Benign (washStep ext s QmL acc k) := by
  unfold washStep
  exact benign_bind (benign_lget _ _) (fun qk =>
    benign_bind (benign_reshape3 _ _) (fun mode =>
      benign_ite _ (benign_ok _) (benign_err rfl)))

theorem benign_setUpSubspace (ext : DLMExt) (s : DLM) (m r : ℕ)
    (sigma tol : Rat) (max_iters : ℕ) (use_modes : Bool) :
    Benign (setUpSubspace ext s m r sigma tol max_iters use_modes) := by
  unfold setUpSubspace
  exact benign_bind (benign_lget _ _) (fun _ =>
    benign_bind (benign_foldlM (fun st _ =>
        benign_subspaceIter ext ext.stiffMat ext.massMat m r tol st) _ _)
      (fun stf =>
        benign_bind (benign_buildBasis ext ext.stiffMat m r use_modes stf)
          (fun bb =>
            benign_bind (benign_foldlM (benign_washStep ext s bb.2.1) _ _)
              (fun w =>
                benign_bind (benign_pyVar _ _) (fun omegaL =>
                  benign_ok _)))))

set_option maxHeartbeats 2000000 in
/-- C3 counterexample: with the concrete model, subspace size m = 2,
r = 1 required mode, tol = -1 (so the residual test abs(b0 ev) at or
below tol can never pass) and max_iters = 1, the single restart
iteration fails its convergence test, yet setUpSubspace returns
normally, storing the basis as final, with no NonConvergence report. -/
theorem setUpSubspace_c3_counterexample :
    isOkE (setUpSubspace extC sC2 2 1 0 (-1) 1 false) = true ∧
    convCheck 1 (-1) 1 [[1]] = .ok false ∧
    reportsErr Err.nonConvergence
      (setUpSubspace extC sC2 2 1 0 (-1) 1 false) = false := by
  have h1 : isOkE (setUpSubspace extC sC2 2 1 0 (-1) 1 false) = true := by
    norm_num [setUpSubspace, subspaceIter, lanczos, lanczosStep,
      lanczosMGSStep, matVec, mataxpy, rdot, raxpy, rscale, rzero, lget,
      lset, llast, convCheck, argsortR, sumCols, restartStep, buildBasis,
      krStep, krStepInner, msetSym, krDiag, qmStep, washStep, reshape3,
      pyVar, getModeBCs, extC, sC2, isOkE, dotL, List.range_succ, pyName]
  refine ⟨h1, ?_, reportsErr_false_of_isOk h1 _⟩
  norm_num [convCheck, lget, llast, List.range_succ]

/-- C3 amended: setUpSubspace has no NonConvergence report at all: no
execution, convergent or not, returns a NonConvergence signal; on
exhausting max_iters the loop falls through and the basis assembly and
return run unconditionally (the counterexample exhibits a
non-convergent run returning normally). -/
theorem setUpSubspace_no_nonconvergence_report (ext : DLMExt) (s : DLM)
    (m r : ℕ) (sigma tol : Rat) (max_iters : ℕ) (use_modes : Bool) :
    reportsErr Err.nonConvergence
      (setUpSubspace ext s m r sigma tol max_iters use_modes) = false :=
  reportsErr_false_of_benign
    (benign_setUpSubspace ext s m r sigma tol max_iters use_modes) rfl
